import Mathlib

/-!
Shallow embedding of the Breakpad symbol-file parser
(`symbolic-debuginfo/src/breakpad.rs`) and the Breakpad RPN unwind
expression evaluator (`symbolic-unwind/src/evaluator/mod.rs`) of the
EmbarkStudios/symbolic repository, together with proofs about the
claims of its specification.

Byte buffers are embedded as `List Nat` (each element a byte value),
strings as `List Char`, machine integers as `Nat` with explicit
`% 2 ^ w` where wrapping matters, and fallible operations as
`Option`/`Except`.
-/

set_option maxRecDepth 40000

namespace Symbolic

/-- Decidable equality of `Except` values, used to evaluate the
embedding on concrete inputs. -/
instance {ε α : Type} [DecidableEq ε] [DecidableEq α] :
    DecidableEq (Except ε α) := fun x y =>
  match x, y with
  | .ok a, .ok b =>
    if h : a = b then .isTrue (by rw [h]) else .isFalse (by simp [h])
  | .error a, .error b =>
    if h : a = b then .isTrue (by rw [h]) else .isFalse (by simp [h])
  | .ok _, .error _ => .isFalse (by simp)
  | .error _, .ok _ => .isFalse (by simp)

/-- Converts a Lean string literal to the `List Char` representation used
throughout this development. -/
def str2l (s : String) : List Char := s.data

/-- Converts an ASCII string literal to its byte representation. -/
def str2b (s : String) : List Nat := s.data.map Char.toNat

/-- Rust `char::is_whitespace`: the Unicode `White_Space` property. -/
def rustIsWhitespace (c : Char) : Bool :=
  c.toNat = 0x20 || (0x9 ≤ c.toNat && c.toNat ≤ 0xD) || c.toNat = 0x85 ||
  c.toNat = 0xA0 || c.toNat = 0x1680 ||
  (0x2000 ≤ c.toNat && c.toNat ≤ 0x200A) ||
  c.toNat = 0x2028 || c.toNat = 0x2029 || c.toNat = 0x202F ||
  c.toNat = 0x205F || c.toNat = 0x3000

/-- Rust `str::strip_prefix`: returns the remainder if `p` is a prefix of
`s`, and `none` otherwise. -/
def dropPre : List Char → List Char → Option (List Char)
  | [], s => some s
  | _ :: _, [] => none
  | a :: p, b :: s => if a = b then dropPre p s else none

/-- Rust `str::trim_start`: removes leading Unicode whitespace. -/
def trimStart (s : List Char) : List Char :=
  s.dropWhile rustIsWhitespace

/-- Splits a string at the first whitespace character, if any. -/
def splitFirstWs : List Char → Option (List Char × List Char)
  | [] => none
  | c :: cs =>
    if rustIsWhitespace c then some ([], cs)
    else (splitFirstWs cs).map fun p => (c :: p.1, p.2)

/-- Rust `str::splitn(n, char::is_whitespace)` collected into a list: at
most `n` pieces, each single whitespace character acts as a separator, and
the final piece holds the unsplit remainder. -/
def splitnWs : Nat → List Char → List (List Char)
  | 0, _ => []
  | 1, s => [s]
  | n + 2, s =>
    match splitFirstWs s with
    | none => [s]
    | some (before, after) => before :: splitnWs (n + 1) after

/-- Rust `str::split_whitespace` (auxiliary with accumulator): splits on
runs of whitespace, yielding no empty substrings. -/
def splitWsAux : List Char → List Char → List (List Char)
  | [], acc => if acc.isEmpty then [] else [acc.reverse]
  | c :: cs, acc =>
    if rustIsWhitespace c then
      if acc.isEmpty then splitWsAux cs [] else acc.reverse :: splitWsAux cs []
    else splitWsAux cs (c :: acc)

/-- Rust `str::split_whitespace` collected into a list. -/
def splitWs (s : List Char) : List (List Char) := splitWsAux s []

/-- Strips one trailing carriage return, as Rust `str::lines` does for
`\r\n` line endings. -/
def stripTrailCR (l : List Char) : List Char :=
  if l.getLast? = some '\r' then l.dropLast else l

/-- Rust `str::lines().next()`: the first line of a string, with a `\r`
preceding the line feed stripped; `none` on the empty string. A final line
without a terminating `\n` keeps a trailing `\r`. -/
def firstLine (s : List Char) : Option (List Char) :=
  match s with
  | [] => none
  | _ =>
    let pre := s.takeWhile (· ≠ '\n')
    if pre.length = s.length then some pre else some (stripTrailCR pre)

/-- Rust `char::to_digit(radix)` for a single character. -/
def charDigit (radix : Nat) (c : Char) : Option Nat :=
  let v :=
    if '0' ≤ c ∧ c ≤ '9' then some (c.toNat - '0'.toNat)
    else if 'a' ≤ c ∧ c ≤ 'z' then some (c.toNat - 'a'.toNat + 10)
    else if 'A' ≤ c ∧ c ≤ 'Z' then some (c.toNat - 'A'.toNat + 10)
    else none
  match v with
  | some d => if d < radix then some d else none
  | none => none

/-- Digit-accumulation loop of Rust `from_str_radix`, failing on overflow
of the `width`-bit unsigned target type. -/
def digitsLoop (width radix : Nat) : List Char → Nat → Option Nat
  | [], acc => some acc
  | c :: cs, acc =>
    match charDigit radix c with
    | none => none
    | some d =>
      let acc' := acc * radix + d
      if acc' < 2 ^ width then digitsLoop width radix cs acc' else none

/-- Rust `uN::from_str_radix` (also `str::parse::<uN>` for radix 10): an
optional leading `+` sign followed by at least one digit, rejecting
overflow of the `width`-bit type. -/
def fromStrRadix (width radix : Nat) (s : List Char) : Option Nat :=
  let digits := match s with
    | '+' :: rest => rest
    | _ => s
  if digits.isEmpty then none else digitsLoop width radix digits 0

/-! ## UTF-8 validation and decoding

Embeds Rust `str::from_utf8` faithfully, including the `valid_up_to` and
`error_len` fields of `Utf8Error`: `error_len = none` means the input ended
inside a potentially valid multi-byte sequence. -/

/-- The error type of Rust `str::from_utf8`. -/
structure Utf8Error where
  validUpTo : Nat
  errorLen : Option Nat
  deriving DecidableEq

/-- A UTF-8 continuation byte: `0x80 ..= 0xBF`. -/
def contB (b : Nat) : Bool := 0x80 ≤ b && b ≤ 0xBF

/-- Admissible second byte of a three-byte UTF-8 sequence with lead byte
`b`, per Rust `run_utf8_validation` (the `0xE0` and `0xED` leads restrict
the range to exclude overlong forms and surrogates). -/
def snd3Ok (b b₂ : Nat) : Bool :=
  if b = 0xE0 then 0xA0 ≤ b₂ && b₂ ≤ 0xBF
  else if b = 0xED then 0x80 ≤ b₂ && b₂ ≤ 0x9F
  else contB b₂

/-- Admissible second byte of a four-byte UTF-8 sequence with lead byte
`b` (the `0xF0` and `0xF4` leads exclude overlong forms and code points
beyond `U+10FFFF`). -/
def snd4Ok (b b₂ : Nat) : Bool :=
  if b = 0xF0 then 0x90 ≤ b₂ && b₂ ≤ 0xBF
  else if b = 0xF4 then 0x80 ≤ b₂ && b₂ ≤ 0x8F
  else contB b₂

/-- Rust `str::from_utf8` starting at absolute byte index `i`: decodes
one UTF-8 sequence per step. Errors report `valid_up_to` (the index where
the invalid sequence begins) and `error_len` (`none` exactly when the
input ends inside a potentially valid sequence). -/
def utf8DecodeF : Nat → List Nat → Except Utf8Error (List Char)
  | _, [] => .ok []
  | i, b :: bs =>
    if b < 0x80 then (utf8DecodeF (i + 1) bs).map (Char.ofNat b :: ·)
    else if b < 0xC2 then .error ⟨i, some 1⟩
    else if b ≤ 0xDF then
      match bs with
      | [] => .error ⟨i, none⟩
      | b₂ :: bs₂ =>
        if contB b₂ then
          (utf8DecodeF (i + 2) bs₂).map
            (Char.ofNat ((b - 0xC0) * 64 + (b₂ - 0x80)) :: ·)
        else .error ⟨i, some 1⟩
    else if b ≤ 0xEF then
      match bs with
      | [] => .error ⟨i, none⟩
      | b₂ :: bs₂ =>
        if snd3Ok b b₂ then
          match bs₂ with
          | [] => .error ⟨i, none⟩
          | b₃ :: bs₃ =>
            if contB b₃ then
              (utf8DecodeF (i + 3) bs₃).map
                (Char.ofNat (((b - 0xE0) * 64 + (b₂ - 0x80)) * 64 +
                  (b₃ - 0x80)) :: ·)
            else .error ⟨i, some 2⟩
        else .error ⟨i, some 1⟩
    else if b ≤ 0xF4 then
      match bs with
      | [] => .error ⟨i, none⟩
      | b₂ :: bs₂ =>
        if snd4Ok b b₂ then
          match bs₂ with
          | [] => .error ⟨i, none⟩
          | b₃ :: bs₃ =>
            if contB b₃ then
              match bs₃ with
              | [] => .error ⟨i, none⟩
              | b₄ :: bs₄ =>
                if contB b₄ then
                  (utf8DecodeF (i + 4) bs₄).map
                    (Char.ofNat ((((b - 0xF0) * 64 + (b₂ - 0x80)) * 64 +
                      (b₃ - 0x80)) * 64 + (b₄ - 0x80)) :: ·)
                else .error ⟨i, some 3⟩
            else .error ⟨i, some 2⟩
        else .error ⟨i, some 1⟩
    else .error ⟨i, some 1⟩

/-- Rust `str::from_utf8` on a byte list: the decoded characters, or the
`Utf8Error` describing the first invalid or incomplete sequence. -/
def utf8Decode (bs : List Nat) : Except Utf8Error (List Char) :=
  utf8DecodeF 0 bs

@[simp]
theorem except_map_eq_error_iff {ε α β : Type} {x : Except ε α}
    {f : α → β} {e : ε} : x.map f = .error e ↔ x = .error e := by
  cases x <;> simp [Except.map]

@[simp]
theorem except_map_eq_ok_iff {ε α β : Type} {x : Except ε α} {f : α → β}
    {b : β} : x.map f = .ok b ↔ ∃ a, x = .ok a ∧ f a = b := by
  cases x <;> simp [Except.map]

/-- A UTF-8 validation error lies within the scanned byte range
(auxiliary, by induction on a length bound). -/
theorem utf8DecodeF_error_bounds_aux (L : Nat) :
    ∀ (i : Nat) (bs : List Nat), bs.length ≤ L →
      ∀ e : Utf8Error, utf8DecodeF i bs = .error e →
        i ≤ e.validUpTo ∧ e.validUpTo ≤ i + bs.length := by
  induction L with
  | zero =>
    intro i bs hL e h
    cases bs with
    | nil => simp [utf8DecodeF] at h
    | cons b bs' =>
      rw [List.length_cons] at hL
      omega
  | succ L ih =>
    intro i bs hL e h
    cases bs with
    | nil => simp [utf8DecodeF] at h
    | cons b bs' =>
      rw [utf8DecodeF.eq_def] at h
      repeat' split at h
      all_goals try (injection h with h'; subst h')
      all_goals try exact Except.noConfusion h
      all_goals simp_all only [List.cons.injEq, List.length_cons]
      all_goals try omega
      all_goals
        (rw [except_map_eq_error_iff] at h
         obtain ⟨h₁, h₂⟩ := ih _ _ (by omega) e h
         omega)

/-- A UTF-8 validation error lies within the scanned byte range. -/
theorem utf8DecodeF_error_bounds {i : Nat} {bs : List Nat} {e : Utf8Error}
    (h : utf8DecodeF i bs = .error e) :
    i ≤ e.validUpTo ∧ e.validUpTo ≤ i + bs.length :=
  utf8DecodeF_error_bounds_aux bs.length i bs (le_refl _) e h

/-! Single-branch unfolding equations for `utf8DecodeF`, one per leaf of
its decision tree. -/

theorem utf8U_ascii (i b : Nat) (bs : List Nat) (h1 : b < 0x80) :
    utf8DecodeF i (b :: bs) =
      (utf8DecodeF (i + 1) bs).map (Char.ofNat b :: ·) := by
  rw [utf8DecodeF.eq_def]
  simp [h1]

theorem utf8U_badlow (i b : Nat) (bs : List Nat) (h1 : ¬b < 0x80)
    (h2 : b < 0xC2) : utf8DecodeF i (b :: bs) = .error ⟨i, some 1⟩ := by
  rw [utf8DecodeF.eq_def]
  simp [h1, h2]

theorem utf8U2_nil (i b : Nat) (h1 : ¬b < 0x80) (h2 : ¬b < 0xC2)
    (h3 : b ≤ 0xDF) : utf8DecodeF i [b] = .error ⟨i, none⟩ := by
  rw [utf8DecodeF.eq_def]
  simp [h1, h2, h3]

theorem utf8U2_cont (i b b₂ : Nat) (bs : List Nat) (h1 : ¬b < 0x80)
    (h2 : ¬b < 0xC2) (h3 : b ≤ 0xDF) (hc : contB b₂ = true) :
    utf8DecodeF i (b :: b₂ :: bs) =
      (utf8DecodeF (i + 2) bs).map
        (Char.ofNat ((b - 0xC0) * 64 + (b₂ - 0x80)) :: ·) := by
  rw [utf8DecodeF.eq_def]
  simp [h1, h2, h3, hc]

theorem utf8U2_bad (i b b₂ : Nat) (bs : List Nat) (h1 : ¬b < 0x80)
    (h2 : ¬b < 0xC2) (h3 : b ≤ 0xDF) (hc : ¬contB b₂ = true) :
    utf8DecodeF i (b :: b₂ :: bs) = .error ⟨i, some 1⟩ := by
  rw [utf8DecodeF.eq_def]
  simp [h1, h2, h3, hc]

theorem utf8U3_nil (i b : Nat) (h1 : ¬b < 0x80) (h2 : ¬b < 0xC2)
    (h3 : ¬b ≤ 0xDF) (h4 : b ≤ 0xEF) :
    utf8DecodeF i [b] = .error ⟨i, none⟩ := by
  rw [utf8DecodeF.eq_def]
  simp [h1, h2, h3, h4]

theorem utf8U3_bad2 (i b b₂ : Nat) (bs : List Nat) (h1 : ¬b < 0x80)
    (h2 : ¬b < 0xC2) (h3 : ¬b ≤ 0xDF) (h4 : b ≤ 0xEF)
    (hs : ¬snd3Ok b b₂ = true) :
    utf8DecodeF i (b :: b₂ :: bs) = .error ⟨i, some 1⟩ := by
  rw [utf8DecodeF.eq_def]
  simp [h1, h2, h3, h4, hs]

theorem utf8U3_nil2 (i b b₂ : Nat) (h1 : ¬b < 0x80) (h2 : ¬b < 0xC2)
    (h3 : ¬b ≤ 0xDF) (h4 : b ≤ 0xEF) (hs : snd3Ok b b₂ = true) :
    utf8DecodeF i [b, b₂] = .error ⟨i, none⟩ := by
  rw [utf8DecodeF.eq_def]
  simp [h1, h2, h3, h4, hs]

theorem utf8U3_bad3 (i b b₂ b₃ : Nat) (bs : List Nat) (h1 : ¬b < 0x80)
    (h2 : ¬b < 0xC2) (h3 : ¬b ≤ 0xDF) (h4 : b ≤ 0xEF)
    (hs : snd3Ok b b₂ = true) (hc : ¬contB b₃ = true) :
    utf8DecodeF i (b :: b₂ :: b₃ :: bs) = .error ⟨i, some 2⟩ := by
  rw [utf8DecodeF.eq_def]
  simp [h1, h2, h3, h4, hs, hc]

theorem utf8U3_cont (i b b₂ b₃ : Nat) (bs : List Nat) (h1 : ¬b < 0x80)
    (h2 : ¬b < 0xC2) (h3 : ¬b ≤ 0xDF) (h4 : b ≤ 0xEF)
    (hs : snd3Ok b b₂ = true) (hc : contB b₃ = true) :
    utf8DecodeF i (b :: b₂ :: b₃ :: bs) =
      (utf8DecodeF (i + 3) bs).map
        (Char.ofNat (((b - 0xE0) * 64 + (b₂ - 0x80)) * 64 +
          (b₃ - 0x80)) :: ·) := by
  rw [utf8DecodeF.eq_def]
  simp [h1, h2, h3, h4, hs, hc]

theorem utf8U4_nil (i b : Nat) (h1 : ¬b < 0x80) (h2 : ¬b < 0xC2)
    (h3 : ¬b ≤ 0xDF) (h4 : ¬b ≤ 0xEF) (h5 : b ≤ 0xF4) :
    utf8DecodeF i [b] = .error ⟨i, none⟩ := by
  rw [utf8DecodeF.eq_def]
  simp [h1, h2, h3, h4, h5]

theorem utf8U4_bad2 (i b b₂ : Nat) (bs : List Nat) (h1 : ¬b < 0x80)
    (h2 : ¬b < 0xC2) (h3 : ¬b ≤ 0xDF) (h4 : ¬b ≤ 0xEF) (h5 : b ≤ 0xF4)
    (hs : ¬snd4Ok b b₂ = true) :
    utf8DecodeF i (b :: b₂ :: bs) = .error ⟨i, some 1⟩ := by
  rw [utf8DecodeF.eq_def]
  simp [h1, h2, h3, h4, h5, hs]

theorem utf8U4_nil2 (i b b₂ : Nat) (h1 : ¬b < 0x80) (h2 : ¬b < 0xC2)
    (h3 : ¬b ≤ 0xDF) (h4 : ¬b ≤ 0xEF) (h5 : b ≤ 0xF4)
    (hs : snd4Ok b b₂ = true) :
    utf8DecodeF i [b, b₂] = .error ⟨i, none⟩ := by
  rw [utf8DecodeF.eq_def]
  simp [h1, h2, h3, h4, h5, hs]

theorem utf8U4_bad3 (i b b₂ b₃ : Nat) (bs : List Nat) (h1 : ¬b < 0x80)
    (h2 : ¬b < 0xC2) (h3 : ¬b ≤ 0xDF) (h4 : ¬b ≤ 0xEF) (h5 : b ≤ 0xF4)
    (hs : snd4Ok b b₂ = true) (hc : ¬contB b₃ = true) :
    utf8DecodeF i (b :: b₂ :: b₃ :: bs) = .error ⟨i, some 2⟩ := by
  rw [utf8DecodeF.eq_def]
  simp [h1, h2, h3, h4, h5, hs, hc]

theorem utf8U4_nil3 (i b b₂ b₃ : Nat) (h1 : ¬b < 0x80) (h2 : ¬b < 0xC2)
    (h3 : ¬b ≤ 0xDF) (h4 : ¬b ≤ 0xEF) (h5 : b ≤ 0xF4)
    (hs : snd4Ok b b₂ = true) (hc : contB b₃ = true) :
    utf8DecodeF i [b, b₂, b₃] = .error ⟨i, none⟩ := by
  rw [utf8DecodeF.eq_def]
  simp [h1, h2, h3, h4, h5, hs, hc]

theorem utf8U4_bad4 (i b b₂ b₃ b₄ : Nat) (bs : List Nat) (h1 : ¬b < 0x80)
    (h2 : ¬b < 0xC2) (h3 : ¬b ≤ 0xDF) (h4 : ¬b ≤ 0xEF) (h5 : b ≤ 0xF4)
    (hs : snd4Ok b b₂ = true) (hc : contB b₃ = true)
    (hd : ¬contB b₄ = true) :
    utf8DecodeF i (b :: b₂ :: b₃ :: b₄ :: bs) = .error ⟨i, some 3⟩ := by
  rw [utf8DecodeF.eq_def]
  simp [h1, h2, h3, h4, h5, hs, hc, hd]

theorem utf8U4_cont (i b b₂ b₃ b₄ : Nat) (bs : List Nat) (h1 : ¬b < 0x80)
    (h2 : ¬b < 0xC2) (h3 : ¬b ≤ 0xDF) (h4 : ¬b ≤ 0xEF) (h5 : b ≤ 0xF4)
    (hs : snd4Ok b b₂ = true) (hc : contB b₃ = true)
    (hd : contB b₄ = true) :
    utf8DecodeF i (b :: b₂ :: b₃ :: b₄ :: bs) =
      (utf8DecodeF (i + 4) bs).map
        (Char.ofNat ((((b - 0xF0) * 64 + (b₂ - 0x80)) * 64 +
          (b₃ - 0x80)) * 64 + (b₄ - 0x80)) :: ·) := by
  rw [utf8DecodeF.eq_def]
  simp [h1, h2, h3, h4, h5, hs, hc, hd]

theorem utf8U_badhigh (i b : Nat) (bs : List Nat) (h1 : ¬b < 0x80)
    (h2 : ¬b < 0xC2) (h3 : ¬b ≤ 0xDF) (h4 : ¬b ≤ 0xEF) (h5 : ¬b ≤ 0xF4) :
    utf8DecodeF i (b :: bs) = .error ⟨i, some 1⟩ := by
  rw [utf8DecodeF.eq_def]
  simp [h1, h2, h3, h4, h5]

@[simp]
theorem utf8DecodeF_nil (i : Nat) : utf8DecodeF i [] = .ok [] := by
  rw [utf8DecodeF.eq_def]

/-- Prepending an equal head preserves the prefix relation. -/
theorem prefix_cons_cons {α : Type} (a : α) {l₁ l₂ : List α}
    (h : l₁ <+: l₂) : a :: l₁ <+: a :: l₂ := by
  obtain ⟨t, ht⟩ := h
  exact ⟨t, by rw [← ht]; rfl⟩

/-- Truncating a valid UTF-8 buffer either leaves a valid buffer whose
characters are a prefix of the original decoding, or cuts a multi-byte
sequence: then the error is an incomplete-input error (`error_len =
none`) whose `valid_up_to` marks a boundary at which decoding succeeds
with a prefix of the original characters. Auxiliary version, by
induction on a length bound. -/
theorem utf8DecodeF_take_aux (L : Nat) :
    ∀ (i : Nat) (bs : List Nat), bs.length ≤ L →
      ∀ (cs : List Char) (n : Nat), utf8DecodeF i bs = .ok cs →
      (∃ cs', utf8DecodeF i (bs.take n) = .ok cs' ∧ cs' <+: cs) ∨
      (∃ e cs₂, utf8DecodeF i (bs.take n) = .error e ∧ e.errorLen = none ∧
        utf8DecodeF i (bs.take (e.validUpTo - i)) = .ok cs₂ ∧
        cs₂ <+: cs) := by
  induction L with
  | zero =>
    intro i bs hL cs n h
    cases bs with
    | nil =>
      refine Or.inl ⟨cs, ?_, List.prefix_refl _⟩
      rw [List.take_nil]
      exact h
    | cons b bs' =>
      rw [List.length_cons] at hL
      omega
  | succ L ih =>
    intro i bs hL cs n h
    cases bs with
    | nil =>
      refine Or.inl ⟨cs, ?_, List.prefix_refl _⟩
      rw [List.take_nil]
      exact h
    | cons b bs' =>
      rw [List.length_cons] at hL
      cases n with
      | zero => exact Or.inl ⟨[], by simp, List.nil_prefix⟩
      | succ n' =>
        simp only [List.take_succ_cons]
        by_cases hb1 : b < 0x80
        · rw [utf8U_ascii i b bs' hb1, except_map_eq_ok_iff] at h
          obtain ⟨cs₀, h₀, rfl⟩ := h
          rw [utf8U_ascii i b (bs'.take n') hb1]
          rcases ih (i + 1) bs' (by omega) cs₀ n' h₀ with
            ⟨cs', hd, hp⟩ | ⟨e, cs₂, hd, hnone, hbd, hp⟩
          · exact Or.inl ⟨Char.ofNat b :: cs', by rw [hd]; rfl,
              prefix_cons_cons _ hp⟩
          · refine Or.inr ⟨e, Char.ofNat b :: cs₂, by rw [hd]; rfl, hnone,
              ?_, prefix_cons_cons _ hp⟩
            have hvb := utf8DecodeF_error_bounds hd
            rw [show e.validUpTo - i = e.validUpTo - (i + 1) + 1 from
              by omega]
            rw [List.take_succ_cons, utf8U_ascii i b _ hb1, hbd]
            rfl
        · by_cases hb2 : b < 0xC2
          · rw [utf8U_badlow i b bs' hb1 hb2] at h
            exact Except.noConfusion h
          · by_cases hb3 : b ≤ 0xDF
            · cases bs' with
              | nil =>
                rw [utf8U2_nil i b hb1 hb2 hb3] at h
                exact Except.noConfusion h
              | cons b₂ t =>
                by_cases hc2 : contB b₂ = true
                · rw [utf8U2_cont i b b₂ t hb1 hb2 hb3 hc2,
                    except_map_eq_ok_iff] at h
                  obtain ⟨cs₀, h₀, rfl⟩ := h
                  cases n' with
                  | zero =>
                    refine Or.inr ⟨⟨i, none⟩, [], ?_, rfl, ?_,
                      List.nil_prefix⟩
                    · rw [List.take_zero]
                      exact utf8U2_nil i b hb1 hb2 hb3
                    · simp
                  | succ n'' =>
                    simp only [List.take_succ_cons]
                    rw [utf8U2_cont i b b₂ (t.take n'') hb1 hb2 hb3 hc2]
                    rcases ih (i + 2) t (by simp at hL; omega) cs₀ n'' h₀ with
                      ⟨cs', hd, hp⟩ | ⟨e, cs₂, hd, hnone, hbd, hp⟩
                    · exact Or.inl ⟨_ :: cs', by rw [hd]; rfl,
                        prefix_cons_cons _ hp⟩
                    · refine Or.inr ⟨e, _ :: cs₂, by rw [hd]; rfl, hnone,
                        ?_, prefix_cons_cons _ hp⟩
                      have hvb := utf8DecodeF_error_bounds hd
                      rw [show e.validUpTo - i =
                          e.validUpTo - (i + 2) + 1 + 1 from by omega]
                      rw [List.take_succ_cons, List.take_succ_cons,
                        utf8U2_cont i b b₂ _ hb1 hb2 hb3 hc2, hbd]
                      rfl
                · rw [utf8U2_bad i b b₂ t hb1 hb2 hb3 hc2] at h
                  exact Except.noConfusion h
            · by_cases hb4 : b ≤ 0xEF
              · cases bs' with
                | nil =>
                  rw [utf8U3_nil i b hb1 hb2 hb3 hb4] at h
                  exact Except.noConfusion h
                | cons b₂ t₂ =>
                  by_cases hs3 : snd3Ok b b₂ = true
                  · cases t₂ with
                    | nil =>
                      rw [utf8U3_nil2 i b b₂ hb1 hb2 hb3 hb4 hs3] at h
                      exact Except.noConfusion h
                    | cons b₃ t =>
                      by_cases hc3 : contB b₃ = true
                      · rw [utf8U3_cont i b b₂ b₃ t hb1 hb2 hb3 hb4 hs3 hc3,
                          except_map_eq_ok_iff] at h
                        obtain ⟨cs₀, h₀, rfl⟩ := h
                        cases n' with
                        | zero =>
                          refine Or.inr ⟨⟨i, none⟩, [], ?_, rfl, ?_,
                            List.nil_prefix⟩
                          · rw [List.take_zero]
                            exact utf8U3_nil i b hb1 hb2 hb3 hb4
                          · simp
                        | succ n'' =>
                          simp only [List.take_succ_cons]
                          cases n'' with
                          | zero =>
                            refine Or.inr ⟨⟨i, none⟩, [], ?_, rfl, ?_,
                              List.nil_prefix⟩
                            · rw [List.take_zero]
                              exact utf8U3_nil2 i b b₂ hb1 hb2 hb3 hb4 hs3
                            · simp
                          | succ n''' =>
                            simp only [List.take_succ_cons]
                            rw [utf8U3_cont i b b₂ b₃ (t.take n''') hb1 hb2
                              hb3 hb4 hs3 hc3]
                            rcases ih (i + 3) t (by simp at hL; omega) cs₀
                                n''' h₀ with
                              ⟨cs', hd, hp⟩ | ⟨e, cs₂, hd, hnone, hbd, hp⟩
                            · exact Or.inl ⟨_ :: cs', by rw [hd]; rfl,
                                prefix_cons_cons _ hp⟩
                            · refine Or.inr ⟨e, _ :: cs₂, by rw [hd]; rfl,
                                hnone, ?_, prefix_cons_cons _ hp⟩
                              have hvb := utf8DecodeF_error_bounds hd
                              rw [show e.validUpTo - i =
                                  e.validUpTo - (i + 3) + 1 + 1 + 1 from
                                by omega]
                              rw [List.take_succ_cons, List.take_succ_cons,
                                List.take_succ_cons,
                                utf8U3_cont i b b₂ b₃ _ hb1 hb2 hb3 hb4 hs3
                                  hc3, hbd]
                              rfl
                      · rw [utf8U3_bad3 i b b₂ b₃ t hb1 hb2 hb3 hb4 hs3
                          hc3] at h
                        exact Except.noConfusion h
                  · rw [utf8U3_bad2 i b b₂ t₂ hb1 hb2 hb3 hb4 hs3] at h
                    exact Except.noConfusion h
              · by_cases hb5 : b ≤ 0xF4
                · cases bs' with
                  | nil =>
                    rw [utf8U4_nil i b hb1 hb2 hb3 hb4 hb5] at h
                    exact Except.noConfusion h
                  | cons b₂ t₂ =>
                    by_cases hs4 : snd4Ok b b₂ = true
                    · cases t₂ with
                      | nil =>
                        rw [utf8U4_nil2 i b b₂ hb1 hb2 hb3 hb4 hb5 hs4] at h
                        exact Except.noConfusion h
                      | cons b₃ t₃ =>
                        by_cases hc3 : contB b₃ = true
                        · cases t₃ with
                          | nil =>
                            rw [utf8U4_nil3 i b b₂ b₃ hb1 hb2 hb3 hb4 hb5
                              hs4 hc3] at h
                            exact Except.noConfusion h
                          | cons b₄ t =>
                            by_cases hc4 : contB b₄ = true
                            · rw [utf8U4_cont i b b₂ b₃ b₄ t hb1 hb2 hb3
                                hb4 hb5 hs4 hc3 hc4,
                                except_map_eq_ok_iff] at h
                              obtain ⟨cs₀, h₀, rfl⟩ := h
                              cases n' with
                              | zero =>
                                refine Or.inr ⟨⟨i, none⟩, [], ?_, rfl, ?_,
                                  List.nil_prefix⟩
                                · rw [List.take_zero]
                                  exact utf8U4_nil i b hb1 hb2 hb3 hb4 hb5
                                · simp
                              | succ n'' =>
                                simp only [List.take_succ_cons]
                                cases n'' with
                                | zero =>
                                  refine Or.inr ⟨⟨i, none⟩, [], ?_, rfl,
                                    ?_, List.nil_prefix⟩
                                  · rw [List.take_zero]
                                    exact utf8U4_nil2 i b b₂ hb1 hb2 hb3
                                      hb4 hb5 hs4
                                  · simp
                                | succ n''' =>
                                  simp only [List.take_succ_cons]
                                  cases n''' with
                                  | zero =>
                                    refine Or.inr ⟨⟨i, none⟩, [], ?_, rfl,
                                      ?_, List.nil_prefix⟩
                                    · rw [List.take_zero]
                                      exact utf8U4_nil3 i b b₂ b₃ hb1 hb2
                                        hb3 hb4 hb5 hs4 hc3
                                    · simp
                                  | succ m =>
                                    simp only [List.take_succ_cons]
                                    rw [utf8U4_cont i b b₂ b₃ b₄ (t.take m)
                                      hb1 hb2 hb3 hb4 hb5 hs4 hc3 hc4]
                                    rcases ih (i + 4) t
                                        (by simp at hL; omega) cs₀ m h₀ with
                                      ⟨cs', hd, hp⟩ |
                                        ⟨e, cs₂, hd, hnone, hbd, hp⟩
                                    · exact Or.inl ⟨_ :: cs',
                                        by rw [hd]; rfl,
                                        prefix_cons_cons _ hp⟩
                                    · refine Or.inr ⟨e, _ :: cs₂,
                                        by rw [hd]; rfl, hnone, ?_,
                                        prefix_cons_cons _ hp⟩
                                      have hvb := utf8DecodeF_error_bounds hd
                                      rw [show e.validUpTo - i =
                                          e.validUpTo - (i + 4) + 1 + 1 +
                                            1 + 1 from by omega]
                                      rw [List.take_succ_cons,
                                        List.take_succ_cons,
                                        List.take_succ_cons,
                                        List.take_succ_cons,
                                        utf8U4_cont i b b₂ b₃ b₄ _ hb1 hb2
                                          hb3 hb4 hb5 hs4 hc3 hc4, hbd]
                                      rfl
                            · rw [utf8U4_bad4 i b b₂ b₃ b₄ t hb1 hb2 hb3
                                hb4 hb5 hs4 hc3 hc4] at h
                              exact Except.noConfusion h
                        · rw [utf8U4_bad3 i b b₂ b₃ t₃ hb1 hb2 hb3 hb4 hb5
                            hs4 hc3] at h
                          exact Except.noConfusion h
                    · rw [utf8U4_bad2 i b b₂ t₂ hb1 hb2 hb3 hb4 hb5
                        hs4] at h
                      exact Except.noConfusion h
                · rw [utf8U_badhigh i b bs' hb1 hb2 hb3 hb4 hb5] at h
                  exact Except.noConfusion h

/-- Truncating a valid UTF-8 buffer yields either a valid prefix or an
incomplete-sequence error whose `valid_up_to` is a boundary at which
decoding succeeds. -/
theorem utf8Decode_take {bs : List Nat} {cs : List Char}
    (h : utf8Decode bs = .ok cs) (n : Nat) :
    (∃ cs', utf8Decode (bs.take n) = .ok cs' ∧ cs' <+: cs) ∨
    (∃ e cs₂, utf8Decode (bs.take n) = .error e ∧ e.errorLen = none ∧
      utf8Decode (bs.take e.validUpTo) = .ok cs₂ ∧ cs₂ <+: cs) := by
  have := utf8DecodeF_take_aux bs.length 0 bs (le_refl _) cs n h
  simpa [utf8Decode] using this

theorem testUtf8AsciiRoundTrip : utf8Decode (str2b "MODULE x") = .ok (str2l "MODULE x") := by rfl

theorem testUtf8TwoByte : utf8Decode [0x4D, 0xC3, 0xA9, 0x41] =
    .ok ['M', Char.ofNat 0xE9, 'A'] := by rfl

theorem testUtf8Incomplete : utf8Decode [0x41, 0xC3] = .error ⟨1, none⟩ := by rfl

theorem testUtf8Invalid : utf8Decode [0x41, 0xC3, 0x28] = .error ⟨1, some 1⟩ := by rfl

theorem testUtf8Euro : utf8Decode [0xE2, 0x82, 0xAC] = .ok [Char.ofNat 0x20AC] := by rfl

theorem testHexParse : fromStrRadix 64 16 (str2l "371a") = some 0x371a := by rfl

theorem testDecPlusParse : fromStrRadix 64 10 (str2l "+93") = some 93 := by rfl

theorem testHexOverflow : fromStrRadix 16 16 (str2l "10000") = none := by rfl

theorem testSplitn : splitnWs 3 (str2l "a b c d") =
    [str2l "a", str2l "b", str2l "c d"] := by rfl

theorem testSplitWhitespace : splitWs (str2l "  a bc  d ") =
    [str2l "a", str2l "bc", str2l "d"] := by rfl

/-- `takeWhile` is monotone with respect to the prefix relation. -/
theorem takeWhile_prefix_mono {p : Char → Bool} {l₁ l₂ : List Char}
    (h : l₁ <+: l₂) : l₁.takeWhile p <+: l₂.takeWhile p := by
  obtain ⟨t, rfl⟩ := h
  induction l₁ with
  | nil => exact List.nil_prefix
  | cons a l ih =>
    by_cases hp : p a
    · simp only [List.cons_append, List.takeWhile_cons, hp, if_true]
      exact prefix_cons_cons a ih
    · simp [List.takeWhile_cons, hp]

/-- A prefix of a list is a prefix of its `dropLast`, unless it is the
whole list. -/
theorem prefix_dropLast_or_eq {α : Type} {p l : List α} (h : p <+: l) :
    p <+: l.dropLast ∨ p = l := by
  obtain ⟨t, rfl⟩ := h
  cases t with
  | nil => right; rw [List.append_nil]
  | cons b t' =>
    left
    rw [List.dropLast_append_cons]
    exact List.prefix_append _ _

/-- The head binding of `getLast?` is a member of the list. -/
theorem mem_of_getLastQ {l : List Char} {a : Char}
    (h : l.getLast? = some a) : a ∈ l := by
  have hd := List.dropLast_append_getLast? a h
  rw [← hd]
  exact List.mem_append_right _ (by simp)

/-- If a line-starting prefix `p` (nonempty, free of `\r`) heads the
first line of a prefix `cs'` of `cs`, it also heads the first line of
`cs` itself. -/
theorem firstLine_prefix_lift {cs' cs : List Char} (hpre : cs' <+: cs)
    {l' : List Char} (hfl : firstLine cs' = some l') {p : List Char}
    (hr : '\r' ∉ p) (hmod : p <+: l') :
    ∃ l, firstLine cs = some l ∧ p <+: l := by
  cases cs' with
  | nil => simp [firstLine] at hfl
  | cons c cs₀ =>
    cases cs with
    | nil => simp [List.prefix_nil] at hpre
    | cons d cs₁ =>
      have hl'raw : l' <+: (c :: cs₀).takeWhile (· ≠ '\n') := by
        simp only [firstLine] at hfl
        split at hfl
        · injection hfl with h'
          rw [← h']
        · injection hfl with h'
          rw [← h']
          unfold stripTrailCR
          split
          · exact List.dropLast_prefix _
          · exact List.prefix_refl _
      have hraw : (c :: cs₀).takeWhile (· ≠ '\n') <+:
          (d :: cs₁).takeWhile (· ≠ '\n') := takeWhile_prefix_mono hpre
      have hpraw : p <+: (d :: cs₁).takeWhile (· ≠ '\n') :=
        hmod.trans (hl'raw.trans hraw)
      simp only [firstLine]
      split
      · exact ⟨_, rfl, hpraw⟩
      · refine ⟨_, rfl, ?_⟩
        unfold stripTrailCR
        split
        · next hlast =>
          rcases prefix_dropLast_or_eq hpraw with hgood | hbad
          · exact hgood
          · exfalso
            apply hr
            rw [hbad]
            exact mem_of_getLastQ hlast
        · exact hpraw

/-! ## Breakpad record parsing (`symbolic-debuginfo/src/breakpad.rs`) -/

/-- `ParseBreakpadErrorKind`: the specific record or token parser that
failed. -/
inductive ParseBreakpadErrorKind where
  | arch
  | fileRecord
  | funcRecord
  | id
  | infoRecord
  | lineRecord
  | moduleRecord
  | numDec
  | numHex
  | os
  | publicRecord
  | stackCfiDeltaRecord
  | stackCfiInitRecord
  | stackRecord
  | stackWinRecord
  | stackWinRecordType
  deriving DecidableEq

/-- `BreakpadErrorKind`: kinds of errors when dealing with a
`BreakpadObject`. -/
inductive BreakpadErrorKind where
  | invalidMagic
  | badEncoding
  | parse (kind : ParseBreakpadErrorKind)
  deriving DecidableEq

/-- `BreakpadError`, reduced to its `kind`; the boxed `source` payload
carries no information the claims depend on. -/
structure BreakpadError where
  kind : BreakpadErrorKind
  deriving DecidableEq

/-- `Option::ok_or` specialised to Breakpad parse errors. -/
def req {α : Type} (o : Option α) (k : ParseBreakpadErrorKind) :
    Except BreakpadError α :=
  match o with
  | some a => .ok a
  | none => .error ⟨.parse k⟩

@[simp]
theorem req_some {α : Type} (a : α) (k : ParseBreakpadErrorKind) :
    req (some a) k = .ok a := rfl

@[simp]
theorem req_none {α : Type} (k : ParseBreakpadErrorKind) :
    req (none : Option α) k = .error ⟨.parse k⟩ := rfl

@[simp]
theorem except_bind_ok {ε α β : Type} (a : α) (f : α → Except ε β) :
    (Except.ok a >>= f) = f a := rfl

@[simp]
theorem except_bind_err {ε α β : Type} (e : ε) (f : α → Except ε β) :
    (Except.error e >>= f : Except ε β) = Except.error e := rfl

@[simp]
theorem except_pure_eq_ok {ε α : Type} (a : α) :
    (pure a : Except ε α) = Except.ok a := rfl

@[simp]
theorem except_mapError_ok {ε ω α : Type} (f : ε → ω) (a : α) :
    (Except.ok a : Except ε α).mapError f = Except.ok a := rfl

@[simp]
theorem except_mapError_err {ε ω α : Type} (f : ε → ω) (e : ε) :
    (Except.error e : Except ε α).mapError f = Except.error (f e) := rfl

/-- `str::from_utf8` with the `From<str::Utf8Error> for BreakpadError`
conversion (kind `BadEncoding`). -/
def utf8OrErr (data : List Nat) : Except BreakpadError (List Char) :=
  (utf8Decode data).mapError fun _ => ⟨.badEncoding⟩

/-- `num_hex_64`. -/
def numHex64 (s : List Char) : Except BreakpadError Nat :=
  match fromStrRadix 64 16 s with
  | some v => .ok v
  | none => .error ⟨.parse .numHex⟩

/-- `num_hex_32`. -/
def numHex32 (s : List Char) : Except BreakpadError Nat :=
  match fromStrRadix 32 16 s with
  | some v => .ok v
  | none => .error ⟨.parse .numHex⟩

/-- `num_hex_16`. -/
def numHex16 (s : List Char) : Except BreakpadError Nat :=
  match fromStrRadix 16 16 s with
  | some v => .ok v
  | none => .error ⟨.parse .numHex⟩

/-- `num_dec_64`. -/
def numDec64 (s : List Char) : Except BreakpadError Nat :=
  match fromStrRadix 64 10 s with
  | some v => .ok v
  | none => .error ⟨.parse .numDec⟩

/-- The `os` token validator. -/
def osCheck (s : List Char) : Except BreakpadError (List Char) :=
  if s = str2l "Linux" ∨ s = str2l "mac" ∨ s = str2l "windows" then .ok s
  else .error ⟨.parse .os⟩

/-- The `arch` token validator. -/
def archCheck (s : List Char) : Except BreakpadError (List Char) :=
  if s = str2l "x86" ∨ s = str2l "x86_64" ∨ s = str2l "ppc" ∨
      s = str2l "ppc_64" ∨ s = str2l "unknown" then .ok s
  else .error ⟨.parse .arch⟩

/-- Rust `char::is_ascii_hexdigit`. -/
def isAsciiHexDigit (c : Char) : Bool :=
  ('0' ≤ c && c ≤ '9') || ('a' ≤ c && c ≤ 'f') || ('A' ≤ c && c ≤ 'F')

/-- The `module_id` token validator. -/
def moduleIdCheck (s : List Char) : Except BreakpadError (List Char) :=
  if s.all isAsciiHexDigit ∧ 32 ≤ s.length ∧ s.length ≤ 40 then .ok s
  else .error ⟨.parse .id⟩

/-- `BreakpadStackWinRecordType`. -/
inductive BreakpadStackWinRecordType where
  | fpo
  | frameData
  deriving DecidableEq

/-- The `stack_win_record_type` token validator. -/
def stackWinRecordTypeCheck (s : List Char) :
    Except BreakpadError BreakpadStackWinRecordType :=
  if s = str2l "0" then .ok .fpo
  else if s = str2l "4" then .ok .frameData
  else .error ⟨.parse .stackWinRecordType⟩

/-- `BreakpadModuleRecord`. -/
structure BreakpadModuleRecord where
  os : List Char
  arch : List Char
  id : List Char
  name : List Char
  deriving DecidableEq

/-- `BreakpadModuleRecord::parse`. -/
def moduleRecordParse (data : List Nat) :
    Except BreakpadError BreakpadModuleRecord := do
  let input ← utf8OrErr data
  let line ← req (firstLine input) .moduleRecord
  let rest ← req (dropPre (str2l "MODULE") line) .moduleRecord
  let parts := splitnWs 4 (trimStart rest)
  let p0 ← req (parts.get? 0) .moduleRecord
  let osF ← osCheck p0
  let p1 ← req (parts.get? 1) .moduleRecord
  let archF ← archCheck p1
  let p2 ← req (parts.get? 2) .moduleRecord
  let idF ← moduleIdCheck p2
  let name := (parts.get? 3).getD (str2l "<unknown>")
  .ok ⟨osF, archF, idF, name⟩

/-- `BreakpadPublicRecord`. -/
structure BreakpadPublicRecord where
  multiple : Bool
  address : Nat
  parameterSize : Nat
  name : List Char
  deriving DecidableEq

/-- The token parsing of `BreakpadPublicRecord::parse` after the
`multiple` flag has been determined. -/
def publicRecordTail (multiple : Bool) (current : List Char) :
    Except BreakpadError BreakpadPublicRecord := do
  let parts := splitnWs 3 current
  let p0 ← req (parts.get? 0) .publicRecord
  let address ← numHex64 p0
  let p1 ← req (parts.get? 1) .publicRecord
  let parameterSize ← numHex64 p1
  let name := (parts.get? 2).getD (str2l "<unknown>")
  .ok ⟨multiple, address, parameterSize, name⟩

/-- `BreakpadPublicRecord::parse`: the `multiple` flag is set by
`strip_prefix("m")` on the text following the tag. -/
def publicRecordParse (data : List Nat) :
    Except BreakpadError BreakpadPublicRecord := do
  let input ← utf8OrErr data
  let rest ← req (dropPre (str2l "PUBLIC") input) .publicRecord
  match trimStart rest with
  | 'm' :: r => publicRecordTail true (trimStart r)
  | current => publicRecordTail false current

/-- `BreakpadFuncRecord`. The `lines` field embeds the `Lines` cursor
attached by `BreakpadFuncRecords` as the list of byte lines it will
yield. -/
structure BreakpadFuncRecord where
  multiple : Bool
  address : Nat
  size : Nat
  parameterSize : Nat
  name : List Char
  lines : List (List Nat)
  deriving DecidableEq

/-- The token parsing of `BreakpadFuncRecord::parse` after the
`multiple` flag has been determined; `lines` is left empty
(`Lines::default()`). -/
def funcRecordTail (multiple : Bool) (current : List Char) :
    Except BreakpadError BreakpadFuncRecord := do
  let parts := splitnWs 4 current
  let p0 ← req (parts.get? 0) .funcRecord
  let address ← numHex64 p0
  let p1 ← req (parts.get? 1) .funcRecord
  let size ← numHex64 p1
  let p2 ← req (parts.get? 2) .funcRecord
  let parameterSize ← numHex64 p2
  let name := (parts.get? 3).getD (str2l "<unknown>")
  .ok ⟨multiple, address, size, parameterSize, name, []⟩

/-- `BreakpadFuncRecord::parse`: the `multiple` flag is set by
`strip_prefix("m")` on the text following the tag. -/
def funcRecordParse (data : List Nat) :
    Except BreakpadError BreakpadFuncRecord := do
  let input ← utf8OrErr data
  let rest ← req (dropPre (str2l "FUNC") input) .funcRecord
  match trimStart rest with
  | 'm' :: r => funcRecordTail true (trimStart r)
  | current => funcRecordTail false current

/-- `impl PartialEq for BreakpadFuncRecord`: equality compares the five
header fields and ignores the attached line cursor. -/
def funcRecordBeq (f g : BreakpadFuncRecord) : Bool :=
  f.multiple = g.multiple ∧ f.address = g.address ∧ f.size = g.size ∧
    f.parameterSize = g.parameterSize ∧ f.name = g.name

/-- `BreakpadLineRecord`. -/
structure BreakpadLineRecord where
  address : Nat
  size : Nat
  line : Nat
  fileId : Nat
  deriving DecidableEq

/-- `BreakpadLineRecord::parse`. -/
def lineRecordParse (data : List Nat) :
    Except BreakpadError BreakpadLineRecord := do
  let input ← utf8OrErr data
  let parts := splitnWs 4 input
  let p0 ← req (parts.get? 0) .lineRecord
  let address ← numHex64 p0
  let p1 ← req (parts.get? 1) .lineRecord
  let size ← numHex64 p1
  let p2 ← req (parts.get? 2) .lineRecord
  let line ← numDec64 p2
  let p3 ← req (parts.get? 3) .lineRecord
  let fileId ← numDec64 p3
  .ok ⟨address, size, line, fileId⟩

/-- The stopping condition of `BreakpadLineRecords::next`: a `FUNC `,
`PUBLIC ` or `STACK ` line ends iteration. -/
def lineRecordsStop (line : List Nat) : Bool :=
  (str2b "FUNC ").isPrefixOf line || (str2b "PUBLIC ").isPrefixOf line ||
    (str2b "STACK ").isPrefixOf line

/-- The full stream of items produced by repeatedly calling
`BreakpadLineRecords::next` on a cursor that yields the given lines:
stops at other record kinds, skips empty lines, reports parse errors
without terminating, and silently discards records whose `size` is 0. -/
def lineRecordsItems :
    List (List Nat) → List (Except BreakpadError BreakpadLineRecord)
  | [] => []
  | line :: rest =>
    if lineRecordsStop line then []
    else if line.isEmpty then lineRecordsItems rest
    else
      match lineRecordParse line with
      | .error e => .error e :: lineRecordsItems rest
      | .ok r =>
        if r.size > 0 then .ok r :: lineRecordsItems rest
        else lineRecordsItems rest

/-- `BreakpadStackWinRecord`. -/
structure BreakpadStackWinRecord where
  ty : BreakpadStackWinRecordType
  codeStart : Nat
  codeSize : Nat
  prologSize : Nat
  epilogSize : Nat
  paramsSize : Nat
  savedRegsSize : Nat
  localsSize : Nat
  maxStackSize : Nat
  usesBasePointer : Bool
  programString : Option (List Char)
  deriving DecidableEq

/-- `BreakpadStackWinRecord::parse`. -/
def stackWinRecordParse (data : List Nat) :
    Except BreakpadError BreakpadStackWinRecord := do
  let input ← utf8OrErr data
  let rest ← req (dropPre (str2l "STACK WIN") input) .stackWinRecord
  let parts := splitnWs 11 (trimStart rest)
  let p0 ← req (parts.get? 0) .stackWinRecord
  let ty ← stackWinRecordTypeCheck p0
  let p1 ← req (parts.get? 1) .stackWinRecord
  let codeStart ← numHex32 p1
  let p2 ← req (parts.get? 2) .stackWinRecord
  let codeSize ← numHex32 p2
  let p3 ← req (parts.get? 3) .stackWinRecord
  let prologSize ← numHex16 p3
  let p4 ← req (parts.get? 4) .stackWinRecord
  let epilogSize ← numHex16 p4
  let p5 ← req (parts.get? 5) .stackWinRecord
  let paramsSize ← numHex32 p5
  let p6 ← req (parts.get? 6) .stackWinRecord
  let savedRegsSize ← numHex16 p6
  let p7 ← req (parts.get? 7) .stackWinRecord
  let localsSize ← numHex32 p7
  let p8 ← req (parts.get? 8) .stackWinRecord
  let maxStackSize ← numHex32 p8
  let p9 ← req (parts.get? 9) .stackWinRecord
  let hasProgramString := p9 ≠ str2l "0"
  let p10 ← req (parts.get? 10) .stackWinRecord
  let ub : Bool × Option (List Char) :=
    if hasProgramString then (false, some p10)
    else (p10 ≠ str2l "0", none)
  .ok ⟨ty, codeStart, codeSize, prologSize, epilogSize, paramsSize,
    savedRegsSize, localsSize, maxStackSize, ub.1, ub.2⟩

theorem testPublicRecordMultiple :
    publicRecordParse (str2b "PUBLIC m 5180 0 __clang_call_terminate") =
      .ok ⟨true, 0x5180, 0, str2l "__clang_call_terminate"⟩ := by rfl

theorem testPublicRecordStripM :
    publicRecordParse (str2b "PUBLIC mabc 0 x") =
      .ok ⟨true, 0xabc, 0, str2l "x"⟩ := by rfl

theorem testFuncRecord :
    funcRecordParse (str2b "FUNC 1730 1a 0 <name omitted>") =
      .ok ⟨false, 0x1730, 0x1a, 0, str2l "<name omitted>", []⟩ := by rfl

theorem testLineRecord :
    lineRecordParse (str2b "1730 6 93 20") = .ok ⟨0x1730, 6, 93, 20⟩ := by
  rfl

theorem testStackWinRecord :
    stackWinRecordParse (str2b
        "STACK WIN 4 371a c 0 0 0 0 0 0 1 $T0 .raSearch = $eip $T0 ^ = $esp $T0 4 + =") =
      .ok ⟨.frameData, 0x371a, 0xc, 0, 0, 0, 0, 0, 0, false,
        some (str2l "$T0 .raSearch = $eip $T0 ^ = $esp $T0 4 + =")⟩ := by
  rfl

theorem testModuleRecord :
    moduleRecordParse (str2b
        "MODULE Linux x86_64 492E2DD23CC306CA9C494EEF1533A3810 crash") =
      .ok ⟨str2l "Linux", str2l "x86_64",
        str2l "492E2DD23CC306CA9C494EEF1533A3810", str2l "crash"⟩ := by
  rfl

/-! ## The Breakpad object facade (`BreakpadObject`) -/

/-- Modelled from the spec: `DebugId` of the external `debugid` crate is
parsed from the module id string by delegation, "tolerant of 32-char
no-age"; it accepts the 32-40 ASCII hex digit identifiers that
`module_id` admits. -/
structure DebugIdModel where
  digits : List Char
  deriving DecidableEq

/-- Modelled from the spec: `DebugId::from_str` on a Breakpad module id,
accepting 32 to 40 ASCII hex digits (32 chars means a missing age). -/
def debugIdFromStr (s : List Char) : Option DebugIdModel :=
  if s.all isAsciiHexDigit ∧ 32 ≤ s.length ∧ s.length ≤ 40 then some ⟨s⟩
  else none

/-- Modelled from the spec: the `Arch` collaborator type, restricted to
the names the module record validator admits. -/
structure ArchModel where
  name : List Char
  deriving DecidableEq

/-- Modelled from the spec: `Arch::from_str` accepts the architecture
names enumerated for `MODULE` records. -/
def archFromStr (s : List Char) : Option ArchModel :=
  if s = str2l "x86" ∨ s = str2l "x86_64" ∨ s = str2l "ppc" ∨
      s = str2l "ppc_64" ∨ s = str2l "unknown" then some ⟨s⟩
  else none

/-- `BREAKPAD_HEADER_CAP`. -/
def breakpadHeaderCap : Nat := 320

/-- The header-window computation at the start of
`BreakpadObject::parse`: buffers longer than 320 bytes are capped at 320
bytes, shortened to the last valid UTF-8 boundary when byte 320 would
split a code point, and rejected with `BadEncoding` on a hard UTF-8
error. -/
def breakpadHeader (data : List Nat) : Except BreakpadError (List Nat) :=
  if breakpadHeaderCap < data.length then
    match utf8Decode (data.take breakpadHeaderCap) with
    | .ok _ => .ok (data.take breakpadHeaderCap)
    | .error e =>
      match e.errorLen with
      | none => .ok (data.take e.validUpTo)
      | some _ => .error ⟨.badEncoding⟩
  else .ok data

/-- `BreakpadObject`, holding the parsed debug id, architecture, module
record and the raw data. -/
structure BreakpadObjectModel where
  id : DebugIdModel
  arch : ArchModel
  module : BreakpadModuleRecord
  data : List Nat
  deriving DecidableEq

/-- `BreakpadObject::parse`. -/
def breakpadObjectParse (data : List Nat) :
    Except BreakpadError BreakpadObjectModel := do
  let header ← breakpadHeader data
  let module ← moduleRecordParse header
  let id ← req (debugIdFromStr module.id) .id
  let arch ← req (archFromStr module.arch) .arch
  .ok ⟨id, arch, module, data⟩

theorem testObjectParse :
    breakpadObjectParse (str2b
        "MODULE Linux x86_64 492E2DD23CC306CA9C494EEF1533A3810 crash") =
      .ok ⟨⟨str2l "492E2DD23CC306CA9C494EEF1533A3810"⟩, ⟨str2l "x86_64"⟩,
        ⟨str2l "Linux", str2l "x86_64",
          str2l "492E2DD23CC306CA9C494EEF1533A3810", str2l "crash"⟩,
        str2b "MODULE Linux x86_64 492E2DD23CC306CA9C494EEF1533A3810 crash"⟩ := by
  rfl

theorem testObjectParseNoModule :
    breakpadObjectParse (str2b "HELLO world") =
      .error ⟨.parse .moduleRecord⟩ := by rfl

/-! ## The RPN expression evaluator (`symbolic-unwind/src/evaluator/mod.rs`)

The value type `T` (in the source: `u8`/`u16`/`u32`/`u64` via the
`RegisterValue` trait of `base.rs`) is embedded as `Nat` together with a
bit width `w`; arithmetic wraps modulo `2 ^ w`. The platform pointer
width (`usize`) is the parameter `pw`. -/

/-- `Register`: the CFA register, variables (names beginning with `$`)
and constants. -/
inductive Register where
  | cfa
  | var (name : List Char)
  | const (name : List Char)
  deriving DecidableEq

/-- Byte-lexicographic comparison of register names, matching the derived
`Ord` on Rust `String` (code-point order coincides with UTF-8 byte
order). -/
def strLtB : List Char → List Char → Bool
  | [], [] => false
  | [], _ :: _ => true
  | _ :: _, [] => false
  | a :: as, b :: bs =>
    if a.toNat < b.toNat then true
    else if b.toNat < a.toNat then false
    else strLtB as bs

/-- The derived `Ord` on `Register`: `Cfa < Var _ < Const _`, names
compared lexicographically. -/
def Register.ltB : Register → Register → Bool
  | .cfa, .cfa => false
  | .cfa, _ => true
  | .var _, .cfa => false
  | .var s, .var t => strLtB s t
  | .var _, .const _ => true
  | .const _, .cfa => false
  | .const _, .var _ => false
  | .const s, .const t => strLtB s t

/-- `BTreeMap::get` on the association-list embedding of a map keyed by
registers. -/
def mapGet {α : Type} (k : Register) : List (Register × α) → Option α
  | [] => none
  | (k', v) :: rest => if k = k' then some v else mapGet k rest

/-- `BTreeMap::insert` on the association-list embedding: keeps entries
sorted by `Register.ltB` and overwrites an existing binding. -/
def mapInsert {α : Type} (k : Register) (v : α) :
    List (Register × α) → List (Register × α)
  | [] => [(k, v)]
  | (k', v') :: rest =>
    if Register.ltB k k' then (k, v) :: (k', v') :: rest
    else if Register.ltB k' k then (k', v') :: mapInsert k v rest
    else (k, v) :: rest

/-- `BinOp`. -/
inductive BinOp where
  | add
  | sub
  | mul
  | div
  | mod
  | align
  deriving DecidableEq

/-- `Expr<T>` with `T` embedded as `Nat` (values are `< 2 ^ w`). -/
inductive Expr where
  | value (v : Nat)
  | reg (r : Register)
  | op (e₁ e₂ : Expr) (o : BinOp)
  | deref (e : Expr)
  deriving DecidableEq

/-- `Expr::contains_cfa`. -/
def Expr.containsCfa : Expr → Bool
  | .value _ => false
  | .reg r => r = Register.cfa
  | .op e₁ e₂ _ => e₁.containsCfa || e₂.containsCfa
  | .deref e => e.containsCfa

/-- `Endianness` (from `base.rs`): byte order for memory reads. -/
inductive Endian where
  | big
  | little
  deriving DecidableEq

/-- Modelled from the spec: `MemoryRegion` of `base.rs` (not under
`src/`): a base address and a byte slice. -/
structure MemoryRegion where
  baseAddr : Nat
  contents : List Nat
  deriving DecidableEq

/-- Big-endian accumulation of a byte list into an integer. -/
def readMemBE (bytes : List Nat) : Nat :=
  bytes.foldl (fun acc b => acc * 256 + b) 0

/-- Modelled from the spec: `MemoryRegion::get` of `base.rs` reads a
`T`-wide integer at `address` with the given endianness, requiring
`[address, address + width(T))` to lie within
`[base_addr, base_addr + len)`. -/
def memGet (w : Nat) (endian : Endian) (m : MemoryRegion) (a : Nat) :
    Option Nat :=
  if m.baseAddr ≤ a ∧ a + w / 8 ≤ m.baseAddr + m.contents.length then
    let bytes := (m.contents.drop (a - m.baseAddr)).take (w / 8)
    some (match endian with
      | .big => readMemBE bytes
      | .little => readMemBE bytes.reverse)
  else none

/-- `EvaluationErrorInner`. -/
inductive EvaluationError where
  | undefinedRegister (r : Register)
  | noRuleForRegister (r : Register)
  | memoryUnavailable
  | illegalMemoryAccess (bytes : Nat) (address : Option Nat)
      (rangeStart rangeEnd : Nat)
  deriving DecidableEq

/-- Outcomes of running evaluator code: a returned `EvaluationError`, a
Rust panic (`trap`, raised by `/` and `%` with a zero divisor), or
exhaustion of the modelled call-stack depth (`outOfFuel`, standing for
the non-termination the source's unbounded recursion would exhibit). -/
inductive RunError where
  | evalErr (e : EvaluationError)
  | trap
  | outOfFuel
  deriving DecidableEq

/-- Wrapping addition on the `w`-bit value type. -/
def wrapAdd (w a b : Nat) : Nat := (a + b) % 2 ^ w

/-- Wrapping subtraction on the `w`-bit value type. -/
def wrapSub (w a b : Nat) : Nat := (a + (2 ^ w - b % 2 ^ w)) % 2 ^ w

/-- Wrapping multiplication on the `w`-bit value type. -/
def wrapMul (w a b : Nat) : Nat := a * b % 2 ^ w

/-- `Evaluator::evaluate_inner`: evaluates an expression against a
register map and optional memory. Division, remainder and alignment trap
on a zero right operand, as the source's integer operators do. -/
def evaluateInner (w pw : Nat) (endian : Endian)
    (regs : List (Register × Nat)) (mem : Option MemoryRegion) :
    Expr → Except RunError Nat
  | .value v => .ok v
  | .reg r =>
    match mapGet r regs with
    | some v => .ok v
    | none => .error (.evalErr (.undefinedRegister r))
  | .op e₁ e₂ o => do
    let v₁ ← evaluateInner w pw endian regs mem e₁
    let v₂ ← evaluateInner w pw endian regs mem e₂
    match o with
    | .add => pure (wrapAdd w v₁ v₂)
    | .sub => pure (wrapSub w v₁ v₂)
    | .mul => pure (wrapMul w v₁ v₂)
    | .div => if v₂ = 0 then .error .trap else pure (v₁ / v₂)
    | .mod => if v₂ = 0 then .error .trap else pure (v₁ % v₂)
    | .align => if v₂ = 0 then .error .trap else pure (v₂ * (v₁ / v₂) % 2 ^ w)
  | .deref e => do
    let a ← evaluateInner w pw endian regs mem e
    match mem with
    | none => .error (.evalErr .memoryUnavailable)
    | some m =>
      match memGet w endian m a with
      | some v => pure v
      | none =>
        .error (.evalErr (.illegalMemoryAccess (w / 8)
          (if a < 2 ^ pw then some a else none)
          m.baseAddr (m.baseAddr + m.contents.length)))

/-- `Evaluator::evaluate_register_inner`: looks up the cache, finds the
rule, recursively resolves `.cfa` first when the rule mentions it and the
register map does not bind it (promoting the computed value into the
register map), then evaluates and caches. The mutated register map and
cache are returned alongside the value; `fuel` bounds the modelled
recursion depth. -/
def evaluateRegisterInner (w pw : Nat) (endian : Endian)
    (mem : Option MemoryRegion) (cfiRules : List (Register × Expr)) :
    Nat → Register → List (Register × Nat) → List (Register × Nat) →
    Except RunError (Nat × List (Register × Nat) × List (Register × Nat))
  | 0, _, _, _ => .error .outOfFuel
  | fuel + 1, register, regs, cache =>
    match mapGet register cache with
    | some v => .ok (v, regs, cache)
    | none =>
      match mapGet register cfiRules with
      | none => .error (.evalErr (.noRuleForRegister register))
      | some rule => do
        let st ←
          if rule.containsCfa ∧ mapGet Register.cfa regs = none then
            (evaluateRegisterInner w pw endian mem cfiRules fuel
                Register.cfa regs cache).map
              fun r => (mapInsert Register.cfa r.1 r.2.1, r.2.2)
          else .ok (regs, cache)
        let v ← evaluateInner w pw endian st.1 mem rule
        .ok (v, st.1, mapInsert register v st.2)

/-- The iteration inside `Evaluator::evaluate_all_registers`: evaluates
each rule key in order, threading the register map and cache, stopping at
the first error. -/
def evalAllAux (w pw : Nat) (endian : Endian) (mem : Option MemoryRegion)
    (cfiRules : List (Register × Expr)) (fuel : Nat) :
    List Register → List (Register × Nat) → List (Register × Nat) →
    Except RunError
      (List (Register × Nat) × List (Register × Nat) × List (Register × Nat))
  | [], regs, cache => .ok ([], regs, cache)
  | r :: rs, regs, cache => do
    let res ← evaluateRegisterInner w pw endian mem cfiRules fuel r regs cache
    let rest ← evalAllAux w pw endian mem cfiRules fuel rs res.2.1 res.2.2
    .ok ((r, res.1) :: rest.1, rest.2.1, rest.2.2)

/-- `Evaluator`: optional memory, register map, endianness, register
cache and CFI rules (the latter two as sorted association lists standing
for `BTreeMap`s). -/
structure Evaluator where
  memory : Option MemoryRegion
  registers : List (Register × Nat)
  endian : Endian
  registerCache : List (Register × Nat)
  cfiRules : List (Register × Expr)
  deriving DecidableEq

/-- `Evaluator::new`. -/
def Evaluator.new (endian : Endian) : Evaluator :=
  ⟨none, [], endian, [], []⟩

/-- `Evaluator::evaluate_all_registers`: evaluates every rule key in map
order and collects the results into a new map. -/
def evaluateAllRegisters (w pw fuel : Nat) (ev : Evaluator) :
    Except RunError (List (Register × Nat) × Evaluator) :=
  (evalAllAux w pw ev.endian ev.memory ev.cfiRules fuel
      (ev.cfiRules.map Prod.fst) ev.registers ev.registerCache).map
    fun res =>
      (res.1.foldl (fun m kv => mapInsert kv.1 kv.2 m) [],
        { ev with registers := res.2.1, registerCache := res.2.2 })

/-- `ExpressionError` outcomes of `process_rules`: a parse error, a
returned evaluation error, or one of the abnormal outcomes (panic,
modelled non-termination). -/
inductive ProcessError where
  | parsing
  | evaluation (e : EvaluationError)
  | trap
  | outOfFuel
  deriving DecidableEq

/-- Single-token predicate for RPN literals: `[0-9a-fA-F]+`. -/
def isHexTok (t : List Char) : Bool :=
  !t.isEmpty && t.all isAsciiHexDigit

/-- First character of an RPN constant: `[a-zA-Z_.]`. -/
def constHeadOk (c : Char) : Bool := c.isAlpha || c = '_' || c = '.'

/-- Later characters of an RPN constant: `[a-zA-Z0-9_.]`. -/
def constTailOk (c : Char) : Bool := c.isAlphanum || c = '_' || c = '.'

/-- Modelled from the spec: the `<register>` production of the RPN
grammar in `evaluator/parsing.rs` (not under `src/`): `.cfa` is
`Register::Cfa`, `$`-prefixed identifiers are variables, other
identifiers are constants. -/
def parseRegisterTok (t : List Char) : Option Register :=
  if t = str2l ".cfa" then some .cfa
  else
    match t with
    | '$' :: c :: rest =>
      if c.isAlpha && rest.all Char.isAlphanum then some (.var t) else none
    | c :: rest =>
      if constHeadOk c && rest.all constTailOk then some (.const t) else none
    | [] => none

/-- The `<binop>` tokens. -/
def binOpTok (t : List Char) : Option BinOp :=
  if t = ['+'] then some .add
  else if t = ['-'] then some .sub
  else if t = ['*'] then some .mul
  else if t = ['/'] then some .div
  else if t = ['%'] then some .mod
  else if t = ['@'] then some .align
  else none

/-- Modelled from the spec: one step of the RPN stack parser of
`evaluator/parsing.rs` (not under `src/`): literals and registers push,
binary operators pop two (first popped is the right operand), `^` pops
one and pushes a dereference. -/
def rpnStep (w : Nat) (stack : List Expr) (t : List Char) :
    Option (List Expr) :=
  if t = ['^'] then
    match stack with
    | e :: rest => some (.deref e :: rest)
    | [] => none
  else
    match binOpTok t with
    | some o =>
      match stack with
      | rhs :: lhs :: rest => some (.op lhs rhs o :: rest)
      | _ => none
    | none =>
      if isHexTok t then
        (fromStrRadix w 16 t).map fun v => .value v :: stack
      else (parseRegisterTok t).map fun r => .reg r :: stack

/-- Modelled from the spec: the `<expr>` production — running the RPN
stack parser over a token list must leave exactly one expression. -/
def rpnParse (w : Nat) : List (List Char) → List Expr → Option Expr
  | [], [e] => some e
  | [], _ => none
  | t :: ts, stack =>
    match rpnStep w stack t with
    | some stack' => rpnParse w ts stack'
    | none => none

/-- Groups a rule token stream into `(register, expression tokens)`
segments: a token ending in `:` opens a new rule. -/
def groupRulesAux : List (List Char) → Register → List (List Char) →
    Option (List (Register × List (List Char)))
  | [], r, exprToks => some [(r, exprToks.reverse)]
  | t :: ts, r, exprToks =>
    if t.getLast? = some ':' then
      match parseRegisterTok t.dropLast with
      | some r' =>
        (groupRulesAux ts r' []).map fun rest => (r, exprToks.reverse) :: rest
      | none => none
    else groupRulesAux ts r (t :: exprToks)

/-- Modelled from the spec: `parsing::rules_complete` of
`evaluator/parsing.rs` (not under `src/`): parses a whitespace-separated
sequence of `<register>: <expr>` rules. -/
def rulesComplete (w : Nat) (input : List Char) :
    Option (List (Register × Expr)) :=
  match splitWs input with
  | [] => some []
  | t :: ts =>
    if t.getLast? = some ':' then
      match parseRegisterTok t.dropLast with
      | some r =>
        (groupRulesAux ts r []).bind fun groups =>
          groups.mapM fun g => (rpnParse w g.2 []).map fun e => (g.1, e)
      | none => none
    else none

/-- `Evaluator::process_rules`: parses a complete rule sequence, inserts
every rule into `cfi_rules`, and evaluates all registers. -/
def processRules (w pw fuel : Nat) (ev : Evaluator) (input : List Char) :
    Except ProcessError (List (Register × Nat) × Evaluator) :=
  match rulesComplete w input with
  | none => .error .parsing
  | some rules =>
    let ev' := { ev with
      cfiRules := rules.foldl (fun m kv => mapInsert kv.1 kv.2 m) ev.cfiRules }
    match evaluateAllRegisters w pw fuel ev' with
    | .ok res => .ok res
    | .error (.evalErr e) => .error (.evaluation e)
    | .error .trap => .error .trap
    | .error .outOfFuel => .error .outOfFuel

theorem testRulesParse :
    rulesComplete 8 (str2l ".cfa: $r0 4 - $r0: 3 $r1: .cfa $r0 +") =
      some [(.cfa, .op (.reg (.var (str2l "$r0"))) (.value 4) .sub),
        (.var (str2l "$r0"), .value 3),
        (.var (str2l "$r1"),
          .op (.reg .cfa) (.reg (.var (str2l "$r0"))) .add)] := by rfl

theorem testProcessRulesCfa :
    processRules 8 64 16
        { Evaluator.new .big with registers := [(.var (str2l "$r0"), 17)] }
        (str2l ".cfa: $r0 4 - $r0: 3 $r1: .cfa $r0 +") =
      .ok ([(.cfa, 13), (.var (str2l "$r0"), 3), (.var (str2l "$r1"), 30)],
        { memory := none,
          registers := [(.cfa, 13), (.var (str2l "$r0"), 17)],
          endian := .big,
          registerCache :=
            [(.cfa, 13), (.var (str2l "$r0"), 3), (.var (str2l "$r1"), 30)],
          cfiRules :=
            [(.cfa, .op (.reg (.var (str2l "$r0"))) (.value 4) .sub),
              (.var (str2l "$r0"), .value 3),
              (.var (str2l "$r1"),
                .op (.reg .cfa) (.reg (.var (str2l "$r0"))) .add)] }) := by
  rfl

theorem testProcessRulesSimple :
    (processRules 64 64 16 (Evaluator.new .big)
        (str2l "$rAdd3: 2 2 + $rMul2: 9 6 *")).map Prod.fst =
      .ok [(.var (str2l "$rAdd3"), 4), (.var (str2l "$rMul2"), 54)] := by rfl

theorem testProcessRulesDeref :
    (processRules 64 64 16
        { Evaluator.new .big with
          memory := some ⟨9, [0, 0, 0, 0, 0, 0, 0, 10]⟩ }
        (str2l "$rDeref: 9 ^")).map Prod.fst =
      .ok [(.var (str2l "$rDeref"), 10)] := by rfl

/-! ## Claim theorems -/

/-- C1: Processing the rule set `.cfa: $r0 4 - $r0: 3 $r1: .cfa $r0 +`
with initial register map `{$r0: 17}`, value type u8 (`w = 8`) and
big-endian order via `process_rules` / `evaluate_all_registers` succeeds
and returns exactly `{.cfa: 13, $r0: 3, $r1: 30}`: the rule for `$r1` is
evaluated with the newly computed `.cfa` value 13 promoted into the
register map (final registers `{.cfa: 13, $r0: 17}`) but with the
pre-existing value 17 of `$r0`, not the 3 computed by `$r0`'s own
rule. -/
theorem c1_process_rules_cfa_ordering :
    processRules 8 64 16
        { Evaluator.new .big with registers := [(.var (str2l "$r0"), 17)] }
        (str2l ".cfa: $r0 4 - $r0: 3 $r1: .cfa $r0 +") =
      .ok ([(.cfa, 13), (.var (str2l "$r0"), 3), (.var (str2l "$r1"), 30)],
        { memory := none,
          registers := [(.cfa, 13), (.var (str2l "$r0"), 17)],
          endian := .big,
          registerCache :=
            [(.cfa, 13), (.var (str2l "$r0"), 3), (.var (str2l "$r1"), 30)],
          cfiRules :=
            [(.cfa, .op (.reg (.var (str2l "$r0"))) (.value 4) .sub),
              (.var (str2l "$r0"), .value 3),
              (.var (str2l "$r1"),
                .op (.reg .cfa) (.reg (.var (str2l "$r0"))) .add)] }) := by
  rfl

/-- C7: for values `a, b < 2 ^ w` of the unsigned value type with
`b ≠ 0`, the evaluator's `Align` operation computes `b * (a / b)` under
wrapping arithmetic (no wrap actually occurs), and the result is
divisible by `b` and at most `a`. -/
theorem c7_align_op (w pw : Nat) (endian : Endian)
    (regs : List (Register × Nat)) (mem : Option MemoryRegion) (a b : Nat)
    (ha : a < 2 ^ w) (hb0 : b ≠ 0) :
    evaluateInner w pw endian regs mem (.op (.value a) (.value b) .align) =
        .ok (b * (a / b)) ∧
      b * (a / b) % b = 0 ∧ b * (a / b) ≤ a := by
  have hle : b * (a / b) ≤ a := by
    rw [Nat.mul_comm]
    exact Nat.div_mul_le_self a b
  have hmod : b * (a / b) % 2 ^ w = b * (a / b) :=
    Nat.mod_eq_of_lt (lt_of_le_of_lt hle ha)
  refine ⟨?_, Nat.mul_mod_right b (a / b), hle⟩
  simp [evaluateInner, Bind.bind, Except.bind, pure, Except.pure, hb0, hmod]

/-- Witness for C7 at `w = 8`, `a = 17`, `b = 5`. -/
theorem c7_align_op_witness :
    evaluateInner 8 64 .big [] none (.op (.value 17) (.value 5) .align) =
        .ok (5 * (17 / 5)) ∧
      5 * (17 / 5) % 5 = 0 ∧ 5 * (17 / 5) ≤ 17 :=
  c7_align_op 8 64 .big [] none 17 5 (by decide) (by decide)

/-- Recognizes evaluation outcomes that are returned `EvaluationError`s,
as opposed to a trap (Rust panic) or modelled divergence. -/
def isEvaluationError : Except RunError Nat → Bool
  | .error (.evalErr _) => true
  | _ => false

/-- C8 counterexample: evaluating `1 0 /` does not return an evaluation
error; it traps (the source relies on the default panic of `/` on a zero
divisor). -/
theorem c8_div_zero_counterexample :
    evaluateInner 8 64 .big [] none (.op (.value 1) (.value 0) .div) =
        .error .trap ∧
      isEvaluationError
        (evaluateInner 8 64 .big [] none (.op (.value 1) (.value 0) .div)) =
        false :=
  ⟨rfl, rfl⟩

/-- C8 (amended): whenever the right operand of a `Div`, `Mod` or `Align`
operation evaluates to 0 (and the left operand evaluates), evaluation
traps — the embedded total function returns the distinguished `trap`
outcome modelling the Rust panic, not an `EvaluationError`. -/
theorem c8_zero_divisor_traps (w pw : Nat) (endian : Endian)
    (regs : List (Register × Nat)) (mem : Option MemoryRegion)
    (e₁ e₂ : Expr) (o : BinOp) (v₁ : Nat)
    (ho : o = .div ∨ o = .mod ∨ o = .align)
    (h₁ : evaluateInner w pw endian regs mem e₁ = .ok v₁)
    (h₂ : evaluateInner w pw endian regs mem e₂ = .ok 0) :
    evaluateInner w pw endian regs mem (.op e₁ e₂ o) = .error .trap := by
  rcases ho with rfl | rfl | rfl <;>
    simp [evaluateInner, Bind.bind, Except.bind, h₁, h₂]

/-- Witness for C8 (amended) at `7 % 0`. -/
theorem c8_zero_divisor_traps_witness :
    evaluateInner 8 64 .big [] none (.op (.value 7) (.value 0) .mod) =
      .error .trap :=
  c8_zero_divisor_traps 8 64 .big [] none (.value 7) (.value 0) .mod 7
    (Or.inr (Or.inl rfl)) rfl rfl

/-- C10: equality of `BreakpadFuncRecord`s compares exactly the
`multiple`, `address`, `size`, `parameter_size` and `name` fields, so two
records with identical header fields but different attached line cursors
compare equal. -/
theorem c10_func_record_eq_ignores_lines :
    (∀ f g : BreakpadFuncRecord,
      funcRecordBeq f g = true ↔
        f.multiple = g.multiple ∧ f.address = g.address ∧ f.size = g.size ∧
          f.parameterSize = g.parameterSize ∧ f.name = g.name) ∧
    ∀ (f : BreakpadFuncRecord) (l₁ l₂ : List (List Nat)),
      funcRecordBeq { f with lines := l₁ } { f with lines := l₂ } = true := by
  constructor
  · intro f g
    simp [funcRecordBeq]
  · intro f l₁ l₂
    simp [funcRecordBeq]

/-- Witness for C10: records differing only in their line cursor compare
equal. -/
theorem c10_func_record_eq_ignores_lines_witness :
    funcRecordBeq ⟨false, 1, 2, 3, str2l "f", [str2b "10 4 7 1"]⟩
      ⟨false, 1, 2, 3, str2l "f", []⟩ = true :=
  c10_func_record_eq_ignores_lines.2 ⟨false, 1, 2, 3, str2l "f", []⟩
    [str2b "10 4 7 1"] []

/-- `publicRecordTail` always reports the `multiple` flag it was given. -/
theorem publicRecordTail_multiple {m : Bool} {cur : List Char}
    {r : BreakpadPublicRecord} (h : publicRecordTail m cur = .ok r) :
    r.multiple = m := by
  simp only [publicRecordTail] at h
  rcases h0 : (splitnWs 3 cur).get? 0 with _ | p0 <;> rw [h0] at h
  · simp at h
  · simp only [req_some, except_bind_ok] at h
    rcases h1 : numHex64 p0 with e | address <;> rw [h1] at h
    · simp at h
    · simp only [except_bind_ok] at h
      rcases h2 : (splitnWs 3 cur).get? 1 with _ | p1 <;> rw [h2] at h
      · simp at h
      · simp only [req_some, except_bind_ok] at h
        rcases h3 : numHex64 p1 with e | ps <;> rw [h3] at h
        · simp at h
        · simp only [except_bind_ok] at h
          injection h with h'
          rw [← h']

/-- `funcRecordTail` always reports the `multiple` flag it was given. -/
theorem funcRecordTail_multiple {m : Bool} {cur : List Char}
    {r : BreakpadFuncRecord} (h : funcRecordTail m cur = .ok r) :
    r.multiple = m := by
  simp only [funcRecordTail] at h
  rcases h0 : (splitnWs 4 cur).get? 0 with _ | p0 <;> rw [h0] at h
  · simp at h
  · simp only [req_some, except_bind_ok] at h
    rcases h1 : numHex64 p0 with e | address <;> rw [h1] at h
    · simp at h
    · simp only [except_bind_ok] at h
      rcases h2 : (splitnWs 4 cur).get? 1 with _ | p1 <;> rw [h2] at h
      · simp at h
      · simp only [req_some, except_bind_ok] at h
        rcases h3 : numHex64 p1 with e | sz <;> rw [h3] at h
        · simp at h
        · simp only [except_bind_ok] at h
          rcases h4 : (splitnWs 4 cur).get? 2 with _ | p2 <;> rw [h4] at h
          · simp at h
          · simp only [req_some, except_bind_ok] at h
            rcases h5 : numHex64 p2 with e | ps <;> rw [h5] at h
            · simp at h
            · simp only [except_bind_ok] at h
              injection h with h'
              rw [← h']

/-- Whether a string begins with the letter `m`. -/
def headIsM (s : List Char) : Bool :=
  match s with
  | c :: _ => c = 'm'
  | [] => false

/-- C2 counterexample: in `PUBLIC mabc 0 x` the first token after the tag
is `mabc`, not the literal token `m`, yet the decoder accepts the line
with `multiple = true` and parses the address from the remainder `abc`
(the claim predicts `multiple = false` and a hex parse failure on
`mabc`). -/
theorem c2_multiple_counterexample :
    publicRecordParse (str2b "PUBLIC mabc 0 x") =
      .ok ⟨true, 0xabc, 0, str2l "x"⟩ := by rfl

/-- C2 (amended): for every successfully parsed `PUBLIC` or `FUNC`
record, `multiple` is true exactly when the text after the record tag
(once leading whitespace is trimmed) begins with the letter `m`; the `m`
is consumed and parsing of the hex address continues after it. -/
theorem c2_multiple_iff_m_stripped :
    (∀ (data : List Nat) (r : BreakpadPublicRecord),
      publicRecordParse data = .ok r →
      ∃ cs rest, utf8Decode data = .ok cs ∧
        dropPre (str2l "PUBLIC") cs = some rest ∧
        r.multiple = headIsM (trimStart rest)) ∧
    ∀ (data : List Nat) (r : BreakpadFuncRecord),
      funcRecordParse data = .ok r →
      ∃ cs rest, utf8Decode data = .ok cs ∧
        dropPre (str2l "FUNC") cs = some rest ∧
        r.multiple = headIsM (trimStart rest) := by
  constructor
  · intro data r h
    simp only [publicRecordParse] at h
    rcases hdec : utf8Decode data with e | cs
    · simp [utf8OrErr, hdec] at h
    · simp only [utf8OrErr, hdec, except_mapError_ok, except_bind_ok] at h
      rcases hdp : dropPre (str2l "PUBLIC") cs with _ | rest <;> rw [hdp] at h
      · simp at h
      · simp only [req_some, except_bind_ok] at h
        refine ⟨cs, rest, rfl, hdp, ?_⟩
        split at h
        · next r' heq =>
          rw [heq]
          exact publicRecordTail_multiple h
        · next hne =>
          rw [publicRecordTail_multiple h]
          rcases htr : trimStart rest with _ | ⟨c, cs'⟩
          · rfl
          · by_cases hc : c = 'm'
            · subst hc
              exact absurd htr (hne cs')
            · simp [headIsM, hc]
  · intro data r h
    simp only [funcRecordParse] at h
    rcases hdec : utf8Decode data with e | cs
    · simp [utf8OrErr, hdec] at h
    · simp only [utf8OrErr, hdec, except_mapError_ok, except_bind_ok] at h
      rcases hdp : dropPre (str2l "FUNC") cs with _ | rest <;> rw [hdp] at h
      · simp at h
      · simp only [req_some, except_bind_ok] at h
        refine ⟨cs, rest, rfl, hdp, ?_⟩
        split at h
        · next r' heq =>
          rw [heq]
          exact funcRecordTail_multiple h
        · next hne =>
          rw [funcRecordTail_multiple h]
          rcases htr : trimStart rest with _ | ⟨c, cs'⟩
          · rfl
          · by_cases hc : c = 'm'
            · subst hc
              exact absurd htr (hne cs')
            · simp [headIsM, hc]

/-- Witness for C2 (amended) on `PUBLIC m 2160 0 Public2_1` and
`FUNC m c184 30 0 operator()`. -/
theorem c2_multiple_iff_m_stripped_witness :
    (∃ cs rest, utf8Decode (str2b "PUBLIC m 2160 0 Public2_1") = .ok cs ∧
      dropPre (str2l "PUBLIC") cs = some rest ∧
      (⟨true, 0x2160, 0, str2l "Public2_1"⟩ :
        BreakpadPublicRecord).multiple = headIsM (trimStart rest)) ∧
    ∃ cs rest, utf8Decode (str2b "FUNC m c184 30 0 operator()") = .ok cs ∧
      dropPre (str2l "FUNC") cs = some rest ∧
      (⟨true, 0xc184, 0x30, 0, str2l "operator()", []⟩ :
        BreakpadFuncRecord).multiple = headIsM (trimStart rest) :=
  ⟨c2_multiple_iff_m_stripped.1 (str2b "PUBLIC m 2160 0 Public2_1")
      ⟨true, 0x2160, 0, str2l "Public2_1"⟩ (by rfl),
    c2_multiple_iff_m_stripped.2 (str2b "FUNC m c184 30 0 operator()")
      ⟨true, 0xc184, 0x30, 0, str2l "operator()", []⟩ (by rfl)⟩

/-- `splitFirstWs` decomposes its input around the separator
character. -/
theorem splitFirstWs_eq (s : List Char) :
    ∀ before after, splitFirstWs s = some (before, after) →
      ∃ c, s = before ++ c :: after := by
  induction s with
  | nil =>
    intro b a h
    simp [splitFirstWs] at h
  | cons c cs ih =>
    intro b a h
    simp only [splitFirstWs] at h
    by_cases hws : rustIsWhitespace c = true
    · rw [if_pos hws] at h
      simp only [Option.some.injEq, Prod.mk.injEq] at h
      obtain ⟨rfl, rfl⟩ := h
      exact ⟨c, rfl⟩
    · rw [if_neg hws] at h
      rcases hsp : splitFirstWs cs with _ | ⟨bb, aa⟩ <;> rw [hsp] at h
      · simp at h
      · simp only [Option.map_some', Option.some.injEq, Prod.mk.injEq] at h
        obtain ⟨rfl, rfl⟩ := h
        obtain ⟨d, hd⟩ := ih bb aa hsp
        exact ⟨d, by simp [hd]⟩

/-- The last piece produced by `splitnWs` is a suffix of the input (it is
the unsplit remainder). -/
theorem splitnWs_last_suffix (n : Nat) :
    ∀ s t : List Char, (splitnWs (n + 1) s).get? n = some t → t <:+ s := by
  induction n with
  | zero =>
    intro s t h
    simp only [splitnWs, List.get?] at h
    injection h with h'
    rw [← h']
  | succ m ih =>
    intro s t h
    simp only [splitnWs] at h
    rcases hsp : splitFirstWs s with _ | ⟨b, a⟩ <;> rw [hsp] at h
    · simp [List.get?] at h
    · rw [List.get?_cons_succ] at h
      obtain ⟨c, hs⟩ := splitFirstWs_eq s b a hsp
      rw [hs]
      exact (ih a t h).trans ((List.suffix_cons c a).trans
        (List.suffix_append b (c :: a)))

/-- `strip_prefix` succeeds exactly on prefix decompositions. -/
theorem dropPre_eq_some_iff {p : List Char} :
    ∀ {s r : List Char}, dropPre p s = some r ↔ s = p ++ r := by
  induction p with
  | nil =>
    intro s r
    simp [dropPre]
  | cons a p ih =>
    intro s r
    cases s with
    | nil => simp [dropPre]
    | cons b s' =>
      simp only [dropPre]
      by_cases hab : a = b
      · subst hab
        rw [if_pos rfl]
        simp [ih]
      · rw [if_neg hab]
        simp [hab]
        intro hba
        exact absurd hba.symm hab

/-- `BreakpadModuleRecord::parse` fails with `Parse(ModuleRecord)` on any
valid-UTF-8 input whose first line does not start with `MODULE`. -/
theorem moduleRecordParse_no_module {hdr : List Nat} {cs : List Char}
    (hdec : utf8Decode hdr = .ok cs)
    (hno : ∀ l, firstLine cs = some l → ¬str2l "MODULE" <+: l) :
    moduleRecordParse hdr = .error ⟨.parse .moduleRecord⟩ := by
  simp only [moduleRecordParse, utf8OrErr, hdec, except_mapError_ok,
    except_bind_ok]
  rcases hfl : firstLine cs with _ | l
  · simp
  · simp only [req_some, except_bind_ok]
    rcases hdp : dropPre (str2l "MODULE") l with _ | rest
    · simp
    · exfalso
      exact hno l hfl ⟨rest, (dropPre_eq_some_iff.mp hdp).symm⟩

/-- C3 counterexample: for the valid-UTF-8 buffer `HELLO world`, whose
first line does not start with `MODULE`, `BreakpadObject::parse` returns
an error of kind `Parse(ModuleRecord)` — not `InvalidMagic`, which the
code never constructs. -/
theorem c3_invalid_magic_counterexample :
    breakpadObjectParse (str2b "HELLO world") =
        .error ⟨.parse .moduleRecord⟩ ∧
      BreakpadErrorKind.parse .moduleRecord ≠ .invalidMagic :=
  ⟨by rfl, by decide⟩

/-- C3 (amended): for every valid-UTF-8 input buffer whose first line
does not start with the `MODULE` prefix, `BreakpadObject::parse` returns
an error whose kind is `Parse(ModuleRecord)` (the `InvalidMagic` variant
is never produced). -/
theorem c3_no_module_means_module_record_error (data : List Nat)
    (cs : List Char) (hdec : utf8Decode data = .ok cs)
    (hno : ∀ l, firstLine cs = some l → ¬str2l "MODULE" <+: l) :
    breakpadObjectParse data = .error ⟨.parse .moduleRecord⟩ := by
  simp only [breakpadObjectParse]
  by_cases hlen : breakpadHeaderCap < data.length
  · rcases utf8Decode_take hdec breakpadHeaderCap with
      ⟨cs', hd, hp⟩ | ⟨e, cs₂, hd, hnone, hbd, hp⟩
    · have hh : breakpadHeader data = .ok (data.take breakpadHeaderCap) := by
        rw [breakpadHeader, if_pos hlen, hd]
      rw [hh]
      simp only [except_bind_ok]
      have hml : moduleRecordParse (data.take breakpadHeaderCap) =
          .error ⟨.parse .moduleRecord⟩ := by
        refine moduleRecordParse_no_module hd ?_
        intro l' hfl' hmod
        obtain ⟨l, hfl, hpl⟩ :=
          firstLine_prefix_lift hp hfl' (by decide) hmod
        exact hno l hfl hpl
      rw [hml]
      rfl
    · have hh : breakpadHeader data = .ok (data.take e.validUpTo) := by
        rw [breakpadHeader, if_pos hlen, hd]
        simp [hnone]
      rw [hh]
      simp only [except_bind_ok]
      have hml : moduleRecordParse (data.take e.validUpTo) =
          .error ⟨.parse .moduleRecord⟩ := by
        refine moduleRecordParse_no_module hbd ?_
        intro l' hfl' hmod
        obtain ⟨l, hfl, hpl⟩ :=
          firstLine_prefix_lift hp hfl' (by decide) hmod
        exact hno l hfl hpl
      rw [hml]
      rfl
  · have hh : breakpadHeader data = .ok data := by
      rw [breakpadHeader, if_neg hlen]
    rw [hh]
    simp only [except_bind_ok]
    rw [moduleRecordParse_no_module hdec hno]
    rfl

/-- Witness for C3 (amended) on the buffer `HELLO world`. -/
theorem c3_no_module_means_module_record_error_witness :
    breakpadObjectParse (str2b "HELLO world") =
      .error ⟨.parse .moduleRecord⟩ :=
  c3_no_module_means_module_record_error (str2b "HELLO world")
    (str2l "HELLO world") (by rfl)
    (fun l hl => by
      have h' : str2l "HELLO world" = l := by
        have hfl : firstLine (str2l "HELLO world") =
            some (str2l "HELLO world") := by rfl
        rw [hfl] at hl
        injection hl
      rw [← h']
      decide)

/-- The module-header part of a parsed Breakpad object (module record,
debug id and architecture), with the stored raw data projected away. -/
def breakpadHeaderInfo (data : List Nat) :
    Except BreakpadError (BreakpadModuleRecord × DebugIdModel × ArchModel) :=
  (breakpadObjectParse data).map fun o => (o.module, o.id, o.arch)

/-- A valid 60-byte `MODULE` header line. -/
def c9ModuleLine : List Nat :=
  str2b "MODULE Linux x86_64 492E2DD23CC306CA9C494EEF1533A3810 crash\n"

/-- A 400-byte buffer whose byte 319 is the lead byte of a two-byte UTF-8
sequence, so that the 320-byte header window splits the code point. -/
def c9data : List Nat :=
  c9ModuleLine ++ List.replicate 259 0x41 ++ [0xC3, 0xA9] ++
    List.replicate 79 0x42

/-- C9: (1) for buffers longer than 320 bytes the module header read by
`BreakpadObject::parse` depends only on the first 320 bytes; (2) the
400-byte buffer `c9data`, whose byte 319 splits a two-byte code point
(the 320-byte window decodes to an incomplete-input error at 319), parses
successfully on the shortened valid prefix; (3) a hard UTF-8 error inside
the window (`error_len = some k`) makes parsing fail with
`BadEncoding`. -/
theorem c9_header_cap :
    (∀ d₁ d₂ : List Nat, breakpadHeaderCap < d₁.length →
      breakpadHeaderCap < d₂.length →
      d₁.take breakpadHeaderCap = d₂.take breakpadHeaderCap →
      breakpadHeaderInfo d₁ = breakpadHeaderInfo d₂) ∧
    (c9data.length = 400 ∧
      utf8Decode (c9data.take breakpadHeaderCap) = .error ⟨319, none⟩ ∧
      (breakpadObjectParse c9data).isOk = true) ∧
    ∀ (data : List Nat) (e : Utf8Error) (k : Nat),
      breakpadHeaderCap < data.length →
      utf8Decode (data.take breakpadHeaderCap) = .error e →
      e.errorLen = some k →
      breakpadObjectParse data = .error ⟨.badEncoding⟩ := by
  refine ⟨?_, ⟨by rfl, by rfl, by rfl⟩, ?_⟩
  · intro d₁ d₂ h₁ h₂ htake
    have hh : breakpadHeader d₁ = breakpadHeader d₂ := by
      rw [breakpadHeader, breakpadHeader, if_pos h₁, if_pos h₂, htake]
      rcases hdec : utf8Decode (d₂.take breakpadHeaderCap) with e | cs
      · obtain ⟨-, hvb⟩ := utf8DecodeF_error_bounds hdec
        have hlen : e.validUpTo ≤ breakpadHeaderCap := by
          have : (d₂.take breakpadHeaderCap).length ≤ breakpadHeaderCap :=
            by simp
          omega
        have htk : d₁.take e.validUpTo = d₂.take e.validUpTo := by
          calc d₁.take e.validUpTo
              = (d₁.take breakpadHeaderCap).take e.validUpTo := by
                rw [List.take_take, Nat.min_eq_left hlen]
            _ = (d₂.take breakpadHeaderCap).take e.validUpTo := by
                rw [htake]
            _ = d₂.take e.validUpTo := by
                rw [List.take_take, Nat.min_eq_left hlen]
        rcases hel : e.errorLen with _ | k <;> simp [hel, htk]
      · rfl
    simp only [breakpadHeaderInfo, breakpadObjectParse]
    rcases hh2 : breakpadHeader d₂ with e | hdr
    · rw [hh, hh2]
      rfl
    · rw [hh, hh2]
      simp only [except_bind_ok]
      rcases hm : moduleRecordParse hdr with e | m
      · rfl
      · simp only [except_bind_ok]
        rcases hid : debugIdFromStr m.id with _ | idv
        · rfl
        · simp only [req_some, except_bind_ok]
          rcases ha : archFromStr m.arch with _ | av
          · rfl
          · simp only [req_some, except_bind_ok]
            rfl
  · intro data e k hlen hdec hel
    have hh : breakpadHeader data = .error ⟨.badEncoding⟩ := by
      rw [breakpadHeader, if_pos hlen, hdec]
      simp [hel]
    simp only [breakpadObjectParse]
    rw [hh]
    rfl

/-- Witness for C9: parts (1) and (3) applied to concrete buffers — the
header of `c9data` is unchanged by appending a byte, and a buffer of 321
`0xFF` bytes fails with `BadEncoding`. -/
theorem c9_header_cap_witness :
    breakpadHeaderInfo c9data = breakpadHeaderInfo (c9data ++ [0x43]) ∧
      breakpadObjectParse (List.replicate 321 0xFF) =
        .error ⟨.badEncoding⟩ :=
  ⟨c9_header_cap.1 c9data (c9data ++ [0x43]) (by decide) (by decide)
      (by rfl),
    c9_header_cap.2.2 (List.replicate 321 0xFF) ⟨0, some 1⟩ 1 (by decide)
      (by rfl) rfl⟩

/-- C5: in a successfully parsed `STACK WIN` record, if the 10th token
after the tag differs from `"0"` then `program_string` holds the entire
remainder of the line (the 11th `splitn` piece, a suffix of the line with
internal whitespace preserved — even when that remainder is `"0"`) and
`uses_base_pointer` is false; if the 10th token equals `"0"` then
`program_string` is `None` and `uses_base_pointer` is true exactly when
the 11th piece differs from `"0"`. -/
theorem c5_stack_win_program_string (data : List Nat)
    (r : BreakpadStackWinRecord) (h : stackWinRecordParse data = .ok r) :
    ∃ cs rest t10 t11,
      utf8Decode data = .ok cs ∧
      dropPre (str2l "STACK WIN") cs = some rest ∧
      (splitnWs 11 (trimStart rest)).get? 9 = some t10 ∧
      (splitnWs 11 (trimStart rest)).get? 10 = some t11 ∧
      t11 <:+ cs ∧
      (t10 ≠ str2l "0" →
        r.programString = some t11 ∧ r.usesBasePointer = false) ∧
      (t10 = str2l "0" →
        r.programString = none ∧
          (r.usesBasePointer = true ↔ t11 ≠ str2l "0")) := by
  simp only [stackWinRecordParse] at h
  rcases hdec : utf8Decode data with e | cs
  · simp [utf8OrErr, hdec] at h
  · simp only [utf8OrErr, hdec, except_mapError_ok, except_bind_ok] at h
    rcases hdp : dropPre (str2l "STACK WIN") cs with _ | rest <;> rw [hdp] at h
    · simp at h
    · simp only [req_some, except_bind_ok] at h
      rcases h0 : (splitnWs 11 (trimStart rest)).get? 0 with _ | p0 <;>
        rw [h0] at h
      · simp at h
      · simp only [req_some, except_bind_ok] at h
        rcases ht : stackWinRecordTypeCheck p0 with e | ty <;> rw [ht] at h
        · simp at h
        · simp only [except_bind_ok] at h
          rcases h1 : (splitnWs 11 (trimStart rest)).get? 1 with _ | p1 <;>
            rw [h1] at h
          · simp at h
          · simp only [req_some, except_bind_ok] at h
            rcases hn1 : numHex32 p1 with e | v1 <;> rw [hn1] at h
            · simp at h
            · simp only [except_bind_ok] at h
              rcases h2 : (splitnWs 11 (trimStart rest)).get? 2 with _ | p2 <;>
                rw [h2] at h
              · simp at h
              · simp only [req_some, except_bind_ok] at h
                rcases hn2 : numHex32 p2 with e | v2 <;> rw [hn2] at h
                · simp at h
                · simp only [except_bind_ok] at h
                  rcases h3 : (splitnWs 11 (trimStart rest)).get? 3 with _ | p3 <;>
                    rw [h3] at h
                  · simp at h
                  · simp only [req_some, except_bind_ok] at h
                    rcases hn3 : numHex16 p3 with e | v3 <;> rw [hn3] at h
                    · simp at h
                    · simp only [except_bind_ok] at h
                      rcases h4 : (splitnWs 11 (trimStart rest)).get? 4 with _ | p4 <;>
                        rw [h4] at h
                      · simp at h
                      · simp only [req_some, except_bind_ok] at h
                        rcases hn4 : numHex16 p4 with e | v4 <;> rw [hn4] at h
                        · simp at h
                        · simp only [except_bind_ok] at h
                          rcases h5 : (splitnWs 11 (trimStart rest)).get? 5 with _ | p5 <;>
                            rw [h5] at h
                          · simp at h
                          · simp only [req_some, except_bind_ok] at h
                            rcases hn5 : numHex32 p5 with e | v5 <;> rw [hn5] at h
                            · simp at h
                            · simp only [except_bind_ok] at h
                              rcases h6 : (splitnWs 11 (trimStart rest)).get? 6 with _ | p6 <;>
                                rw [h6] at h
                              · simp at h
                              · simp only [req_some, except_bind_ok] at h
                                rcases hn6 : numHex16 p6 with e | v6 <;> rw [hn6] at h
                                · simp at h
                                · simp only [except_bind_ok] at h
                                  rcases h7 : (splitnWs 11 (trimStart rest)).get? 7 with _ | p7 <;>
                                    rw [h7] at h
                                  · simp at h
                                  · simp only [req_some, except_bind_ok] at h
                                    rcases hn7 : numHex32 p7 with e | v7 <;> rw [hn7] at h
                                    · simp at h
                                    · simp only [except_bind_ok] at h
                                      rcases h8 : (splitnWs 11 (trimStart rest)).get? 8 with _ | p8 <;>
                                        rw [h8] at h
                                      · simp at h
                                      · simp only [req_some, except_bind_ok] at h
                                        rcases hn8 : numHex32 p8 with e | v8 <;> rw [hn8] at h
                                        · simp at h
                                        · simp only [except_bind_ok] at h
                                          rcases h9 : (splitnWs 11 (trimStart rest)).get? 9 with _ | p9 <;>
                                            rw [h9] at h
                                          · simp at h
                                          · simp only [req_some, except_bind_ok] at h
                                            rcases h10 : (splitnWs 11 (trimStart rest)).get? 10 with _ | p10 <;>
                                              rw [h10] at h
                                            · simp at h
                                            · simp only [req_some, except_bind_ok] at h
                                              injection h with h'
                                              subst h'
                                              refine ⟨cs, rest, p9, p10, rfl, hdp, h9, h10, ?_, ?_, ?_⟩
                                              · have hsuf : p10 <:+ trimStart rest :=
                                                  splitnWs_last_suffix 10 (trimStart rest) p10 h10
                                                have h₂ : trimStart rest <:+ rest :=
                                                  List.dropWhile_suffix _
                                                have h₃ : rest <:+ cs := by
                                                  obtain hcs := dropPre_eq_some_iff.mp hdp
                                                  rw [hcs]
                                                  exact List.suffix_append _ _
                                                exact hsuf.trans (h₂.trans h₃)
                                              · intro hne
                                                rw [if_pos hne]
                                                exact ⟨rfl, rfl⟩
                                              · intro heq
                                                have : ¬ p9 ≠ str2l "0" := by simp [heq]
                                                rw [if_neg this]
                                                refine ⟨rfl, ?_⟩
                                                simp

/-- Witness for C5 on a line whose 10th token is `1` and whose remainder
is the string `0`: the `0` becomes the program string. -/
theorem c5_stack_win_program_string_witness :
    ∃ cs rest t10 t11,
      utf8Decode (str2b "STACK WIN 4 371a c 0 0 0 0 0 0 1 0") = .ok cs ∧
      dropPre (str2l "STACK WIN") cs = some rest ∧
      (splitnWs 11 (trimStart rest)).get? 9 = some t10 ∧
      (splitnWs 11 (trimStart rest)).get? 10 = some t11 ∧
      t11 <:+ cs ∧
      (t10 ≠ str2l "0" →
        (⟨.frameData, 0x371a, 0xc, 0, 0, 0, 0, 0, 0, false,
          some (str2l "0")⟩ : BreakpadStackWinRecord).programString =
            some t11 ∧
          (⟨.frameData, 0x371a, 0xc, 0, 0, 0, 0, 0, 0, false,
            some (str2l "0")⟩ : BreakpadStackWinRecord).usesBasePointer =
            false) ∧
      (t10 = str2l "0" →
        (⟨.frameData, 0x371a, 0xc, 0, 0, 0, 0, 0, 0, false,
          some (str2l "0")⟩ : BreakpadStackWinRecord).programString = none ∧
          ((⟨.frameData, 0x371a, 0xc, 0, 0, 0, 0, 0, 0, false,
            some (str2l "0")⟩ :
              BreakpadStackWinRecord).usesBasePointer = true ↔
            t11 ≠ str2l "0")) :=
  c5_stack_win_program_string (str2b "STACK WIN 4 371a c 0 0 0 0 0 0 1 0")
    ⟨.frameData, 0x371a, 0xc, 0, 0, 0, 0, 0, 0, false, some (str2l "0")⟩
    (by rfl)

/-- C6: evaluating `Deref(e)` first evaluates `e` to an address `a`; with
no memory region it fails with `MemoryUnavailable`; with a memory region,
if `[a, a + width(T))` is not contained in `[base_addr, base_addr + len)`
it fails with `IllegalMemoryAccess` carrying `bytes = width(T)`,
`address = some a` when `a` fits the platform pointer width (`none`
otherwise) and `address_range = base_addr .. base_addr + len`; otherwise
it returns the `T`-wide integer read at `a` with the configured
endianness. -/
theorem c6_deref_semantics (w pw : Nat) (endian : Endian)
    (regs : List (Register × Nat)) (mem : Option MemoryRegion) (e : Expr)
    (a : Nat) (h : evaluateInner w pw endian regs mem e = .ok a) :
    (mem = none →
      evaluateInner w pw endian regs mem (.deref e) =
        .error (.evalErr .memoryUnavailable)) ∧
    ∀ m, mem = some m →
      (¬ (m.baseAddr ≤ a ∧ a + w / 8 ≤ m.baseAddr + m.contents.length) →
        evaluateInner w pw endian regs mem (.deref e) =
          .error (.evalErr (.illegalMemoryAccess (w / 8)
            (if a < 2 ^ pw then some a else none)
            m.baseAddr (m.baseAddr + m.contents.length)))) ∧
      ((m.baseAddr ≤ a ∧ a + w / 8 ≤ m.baseAddr + m.contents.length) →
        evaluateInner w pw endian regs mem (.deref e) =
          .ok (match endian with
            | .big =>
              readMemBE ((m.contents.drop (a - m.baseAddr)).take (w / 8))
            | .little =>
              readMemBE
                ((m.contents.drop (a - m.baseAddr)).take (w / 8)).reverse)) := by
  refine ⟨?_, ?_⟩
  · intro hm
    subst hm
    simp [evaluateInner, h]
  · intro m hm
    subst hm
    refine ⟨?_, ?_⟩
    · intro hrange
      simp only [evaluateInner, h, except_bind_ok, memGet, if_neg hrange]
    · intro hrange
      simp only [evaluateInner, h, except_bind_ok, memGet, if_pos hrange]
      cases endian <;> rfl

/-- Witness for C6: an in-range dereference reads the big-endian value,
an out-of-range one reports the illegal access with its range. -/
theorem c6_deref_semantics_witness :
    evaluateInner 64 64 .big [] (some ⟨9, [0, 0, 0, 0, 0, 0, 0, 10]⟩)
        (.deref (.value 9)) = .ok 10 ∧
      evaluateInner 64 64 .big [] (some ⟨9, [0, 0, 0, 0, 0, 0, 0, 10]⟩)
        (.deref (.value 100)) =
        .error (.evalErr (.illegalMemoryAccess 8 (some 100) 9 17)) :=
  ⟨((c6_deref_semantics 64 64 .big [] _ (.value 9) 9 rfl).2
      ⟨9, [0, 0, 0, 0, 0, 0, 0, 10]⟩ rfl).2 (by decide),
    ((c6_deref_semantics 64 64 .big [] _ (.value 100) 100 rfl).2
      ⟨9, [0, 0, 0, 0, 0, 0, 0, 10]⟩ rfl).1 (by decide)⟩

/-- C4: the `BreakpadLineRecords` iterator never yields a successfully
parsed line record whose `size` is 0, for any cursor content and any
position: zero-size records are silently skipped. -/
theorem c4_line_records_skip_zero_size (ls : List (List Nat))
    (r : BreakpadLineRecord) (h : Except.ok r ∈ lineRecordsItems ls) :
    0 < r.size := by
  induction ls with
  | nil => simp [lineRecordsItems] at h
  | cons line rest ih =>
    simp only [lineRecordsItems] at h
    by_cases hstop : lineRecordsStop line = true
    · simp [hstop] at h
    · rw [if_neg hstop] at h
      by_cases hemp : line.isEmpty = true
      · rw [if_pos hemp] at h
        exact ih h
      · rw [if_neg hemp] at h
        rcases hp : lineRecordParse line with e | rec <;> rw [hp] at h
        · rcases List.mem_cons.mp h with h | h
          · exact Except.noConfusion h
          · exact ih h
        · replace h : Except.ok r ∈
              (if rec.size > 0 then Except.ok rec :: lineRecordsItems rest
               else lineRecordsItems rest) := h
          by_cases hs : rec.size > 0
          · rw [if_pos hs] at h
            rcases List.mem_cons.mp h with h | h
            · injection h with h'
              subst h'
              exact hs
            · exact ih h
          · rw [if_neg hs] at h
            exact ih h

/-- Witness for C4: a cursor containing a zero-size line record followed
by a positive-size one yields only the latter. -/
theorem c4_line_records_skip_zero_size_witness :
    (Except.ok (⟨0x1736, 6, 94, 20⟩ : BreakpadLineRecord) ∈
      lineRecordsItems [str2b "1730 0 93 20", str2b "1736 6 94 20"]) ∧
    0 < (⟨0x1736, 6, 94, 20⟩ : BreakpadLineRecord).size :=
  ⟨by decide,
    c4_line_records_skip_zero_size [str2b "1730 0 93 20", str2b "1736 6 94 20"]
      ⟨0x1736, 6, 94, 20⟩ (by decide)⟩

end Symbolic
